import Mathlib

/-!
Shallow embedding of the PAN-card field-extraction engine
(`app/services/pan_ocr_service.py`) and proofs about it.

Strings are modelled as `List Char` internally (Python `str` is a sequence
of characters); the public entry points take and return `String`.
Character classes (`isalpha`, `isdigit`, `str.upper`, `\s`, `\w`) are
modelled with their ASCII semantics, which covers every character the
extractors compare against.
-/

namespace PanOCR

/-! ## Character utilities (Python ASCII semantics) -/

def isAsciiUpper (c : Char) : Bool := 65 ≤ c.toNat && c.toNat ≤ 90

def isAsciiLower (c : Char) : Bool := 97 ≤ c.toNat && c.toNat ≤ 122

/-- Python `str.isalpha` restricted to ASCII. -/
def isAlphaCh (c : Char) : Bool := isAsciiUpper c || isAsciiLower c

/-- Python `str.isdigit` restricted to ASCII. -/
def isDigitCh (c : Char) : Bool := 48 ≤ c.toNat && c.toNat ≤ 57

/-- Python regex `\s` (ASCII): space, tab, newline, carriage return, vertical tab, form feed. -/
def isWsCh (c : Char) : Bool :=
  c.toNat = 32 || c.toNat = 9 || c.toNat = 10 || c.toNat = 13 || c.toNat = 11 || c.toNat = 12

/-- Python regex `\w` (ASCII): alphanumeric or underscore. -/
def isWordCh (c : Char) : Bool := isAlphaCh c || isDigitCh c || c = '_'

/-- Python `str.upper` on one character (ASCII). -/
def pyUpperCh (c : Char) : Char :=
  if 97 ≤ c.toNat ∧ c.toNat ≤ 122 then Char.ofNat (c.toNat - 32) else c

/-! ## String utilities (on `List Char`) -/

/-- Python `text.split('\n')`: split at every newline, keeping empty pieces. -/
def splitNl : List Char → List (List Char)
  | [] => [[]]
  | c :: cs =>
    if c = '\n' then [] :: splitNl cs
    else
      match splitNl cs with
      | g :: gs => (c :: g) :: gs
      | [] => [[c]]

/-- Python `str.strip()`: remove leading and trailing whitespace. -/
def trimWs (l : List Char) : List Char :=
  ((l.dropWhile isWsCh).reverse.dropWhile isWsCh).reverse

/-- Python `re.sub(r'\s+', '', s)`: delete all whitespace. -/
def removeWs (l : List Char) : List Char := l.filter (fun c => !(isWsCh c))

/-- Python `str.split()` (no argument): split on whitespace runs, dropping empties. -/
def splitWsAux : List Char → List Char → List (List Char)
  | [], acc => if acc.isEmpty then [] else [acc.reverse]
  | c :: cs, acc =>
    if isWsCh c then
      if acc.isEmpty then splitWsAux cs [] else acc.reverse :: splitWsAux cs []
    else splitWsAux cs (c :: acc)

def splitWs (l : List Char) : List (List Char) := splitWsAux l []

/-- Python `' '.join(ws)`. -/
def joinSp (ws : List (List Char)) : List Char := List.intercalate [' '] ws

/-- Python `'\n'.join(ws)`. -/
def joinNl (ws : List (List Char)) : List Char := List.intercalate ['\n'] ws

/-- Python `str.upper` (ASCII). -/
def pyUpper (l : List Char) : List Char := l.map pyUpperCh

/-- `needle` is an initial segment of `hay`. -/
def matchesAt (needle hay : List Char) : Bool :=
  match needle, hay with
  | [], _ => true
  | _ :: _, [] => false
  | n :: ns, h :: hs => n = h && matchesAt ns hs

/-- Python `needle in hay` on strings: substring containment. -/
def containsSub (hay needle : List Char) : Bool :=
  match hay with
  | [] => needle.isEmpty
  | _ :: t => matchesAt needle hay || containsSub t needle

/-- Association-list lookup (Python dict lookup on small literal dicts). -/
def alookup (c : Char) : List (Char × Char) → Option Char
  | [] => none
  | p :: ps => if c = p.1 then some p.2 else alookup c ps

/-- Digit string to `Nat` (Python `int(s)` where `s` is all digits). -/
def digitsToNat (l : List Char) : Nat := l.foldl (fun acc c => acc * 10 + (c.toNat - 48)) 0

/-- `d:02d` formatting. -/
def pad2 (n : Nat) : List Char := if n < 10 then '0' :: (Nat.toDigits 10 n) else Nat.toDigits 10 n

/-! ## Document-number correction and grammar validation -/

/-- `digit_corrections` table of `_fix_pan_ocr_errors` (letter misread for a digit). -/
def digit_corrections : List (Char × Char) :=
  [('O', '0'), ('I', '1'), ('L', '1'), ('S', '5'), ('Z', '2'),
   ('B', '8'), ('G', '6'), ('J', '5'), ('R', '4'), ('T', '7')]

/-- `letter_corrections` table of `_fix_pan_ocr_errors` (digit misread for a letter). -/
def letter_corrections : List (Char × Char) :=
  [('0', 'O'), ('1', 'I'), ('5', 'S'), ('8', 'B'), ('3', 'E'),
   ('2', 'Z'), ('6', 'G'), ('9', 'G'), ('4', 'A'), ('7', 'T')]

/-- One step `result[i] = digit_corrections[result[i]]` guarded by membership
(positions 5-8 of `_fix_pan_ocr_errors`). -/
def digitFixAt (r : List Char) (i : Nat) : List Char :=
  match r[i]? with
  | some c =>
    match alookup c digit_corrections with
    | some d => r.set i d
    | none => r
  | none => r

/-- One step `result[i] = letter_corrections.get(result[i], result[i])` guarded by
`result[i] in '0123456789'` (positions 0-4 and 9 of `_fix_pan_ocr_errors`). -/
def letterFixAt (r : List Char) (i : Nat) : List Char :=
  match r[i]? with
  | some c =>
    if isDigitCh c then r.set i ((alookup c letter_corrections).getD c) else r
  | none => r

def fixPanChars (pan : List Char) : List Char :=
  if pan.length < 10 then pan
  else
    let r0 := pyUpper pan
    let r1 := [5, 6, 7, 8].foldl digitFixAt r0
    [0, 1, 2, 3, 4, 9].foldl letterFixAt r1

/-- `_fix_pan_ocr_errors`: fix common OCR errors in a PAN number. -/
def _fix_pan_ocr_errors (pan : String) : String := (fixPanChars pan.data).asString

/-- `^[A-Z]{5}[0-9]{4}[A-Z]{1}$` on a 10-character string. -/
def panGrammarChars (l : List Char) : Bool :=
  l.length = 10 &&
  (l.take 5).all isAsciiUpper &&
  ((l.drop 5).take 4).all isDigitCh &&
  (l.drop 9).all isAsciiUpper

/-- `_is_valid_pan_format`: length 10 and full match of `^[A-Z]{5}[0-9]{4}[A-Z]{1}$`. -/
def _is_valid_pan_format (pan : String) : Bool := panGrammarChars pan.data

/-! ## Name validation -/

def name_exclude_patterns : List (List Char) :=
  ["INCOME".data, "TAX".data, "DEPARTMENT".data, "GOVT".data, "INDIA".data, "PERMANENT".data,
   "ACCOUNT".data, "NUMBER".data, "CARD".data, "SIGNATURE".data, "DATE".data, "BIRTH".data,
   "FATHER".data, "ADDRESS".data, "PAN".data, "GOVERNMENT".data, "MINISTRY".data,
   "OFFICIAL".data]

def isVowelCh (c : Char) : Bool :=
  c = 'A' || c = 'E' || c = 'I' || c = 'O' || c = 'U'

/-- The per-word pronounceability scan of `_is_valid_name`: walk the word keeping
`(vowel_count, consonant_count)`, rejecting when a vowel run exceeds 3 or a
consonant run exceeds 4. -/
def pronounceGo : List Char → Nat → Nat → Bool
  | [], _, _ => true
  | c :: cs, vc, cc =>
    if isVowelCh c then
      if vc + 1 > 3 then false else pronounceGo cs (vc + 1) 0
    else if c = ' ' ∨ c = '-' then pronounceGo cs vc cc
    else if cc + 1 > 4 then false else pronounceGo cs 0 (cc + 1)

/-- The words of a name as `_is_valid_name` computes them:
`text.upper().strip().split()`. -/
def nameWords (text : List Char) : List (List Char) := splitWs (trimWs (pyUpper text))

def validNameChars (text : List Char) (allow_single : Bool) : Bool :=
  if (trimWs (pyUpper text)).length < 5 then false
  else if name_exclude_patterns.any (fun p => containsSub (trimWs (pyUpper text)) p) then
    false
  else if (splitWs (trimWs (pyUpper text))).length < 2 ∧ !allow_single then false
  else if (splitWs (trimWs (pyUpper text))).length < 1 then false
  else if !((splitWs (trimWs (pyUpper text))).all fun w =>
      (3 ≤ w.length && w.length ≤ 15) &&
      w.all (fun c => isAlphaCh c || c = ' ' || c = '-')) then false
  else (splitWs (trimWs (pyUpper text))).all (fun w => pronounceGo w 0 0)

/-- `_is_valid_name`: generic name validation (length, blocklist, word shape,
pronounceability). -/
def _is_valid_name (text : String) (allow_single_word : Bool := false) : Bool :=
  validNameChars text.data allow_single_word

/-! ## `re.findall` scanning skeleton

Python `re.findall` scans left to right collecting non-overlapping matches.
A pattern is given as `m prev s`, returning the captured value and the length
of text consumed (always ≥ 1 for the patterns used here); `prev` is the
character just before the scan position, needed for `\b`. -/

def findallAux {γ : Type} (m : Option Char → List Char → Option (γ × Nat)) :
    Nat → Option Char → List Char → List γ
  | 0, _, _ => []
  | _ + 1, _, [] => []
  | fuel + 1, prev, c :: rest =>
    match m prev (c :: rest) with
    | some (g, len) =>
      if len ≤ 1 then g :: findallAux m fuel (some c) rest
      else
        match ((c :: rest).take len).getLast? with
        | some lastc => g :: findallAux m fuel (some lastc) ((c :: rest).drop len)
        | none => g :: findallAux m fuel (some c) rest
    | none => findallAux m fuel (some c) rest

def findall {γ : Type} (m : Option Char → List Char → Option (γ × Nat)) (s : List Char) :
    List γ :=
  findallAux m (s.length + 1) none s

/-- `len` consecutive digits, returning them and the remainder. -/
def takeDigits (n : Nat) (s : List Char) : Option (List Char × List Char) :=
  let t := s.take n
  if t.length = n ∧ t.all isDigitCh then some (t, s.drop n) else none

/-- Date separator class `[/\.\-]`. -/
def isSepCh (c : Char) : Bool := c = '/' || c = '.' || c = '-'

def matchSep : List Char → Option (List Char)
  | c :: cs => if isSepCh c then some cs else none
  | [] => none

/-! ## Date-of-birth extractor -/

/-- One attempt of `(\d{1,2})[/\.\-](\d{1,2})[/\.\-](\d{4})` with the first two
groups taking `a` resp. `b` digits. -/
def tryDob1 (a b : Nat) (s : List Char) :
    Option ((List Char × List Char × List Char) × Nat) := do
  let (d1, r1) ← takeDigits a s
  let r2 ← matchSep r1
  let (d2, r3) ← takeDigits b r2
  let r4 ← matchSep r3
  let (d3, _) ← takeDigits 4 r4
  pure ((d1, d2, d3), a + 1 + b + 1 + 4)

/-- `(\d{1,2})[/\.\-](\d{1,2})[/\.\-](\d{4})` with greedy `{1,2}` backtracking. -/
def matchDob1 (_ : Option Char) (s : List Char) :
    Option ((List Char × List Char × List Char) × Nat) :=
  tryDob1 2 2 s <|> tryDob1 2 1 s <|> tryDob1 1 2 s <|> tryDob1 1 1 s

/-- One attempt of `(\d{4})[/\.\-](\d{1,2})[/\.\-](\d{1,2})`. -/
def tryDob2 (b c : Nat) (s : List Char) :
    Option ((List Char × List Char × List Char) × Nat) := do
  let (d1, r1) ← takeDigits 4 s
  let r2 ← matchSep r1
  let (d2, r3) ← takeDigits b r2
  let r4 ← matchSep r3
  let (d3, _) ← takeDigits c r4
  pure ((d1, d2, d3), 4 + 1 + b + 1 + c)

/-- `(\d{4})[/\.\-](\d{1,2})[/\.\-](\d{1,2})` with greedy `{1,2}` backtracking. -/
def matchDob2 (_ : Option Char) (s : List Char) :
    Option ((List Char × List Char × List Char) × Nat) :=
  tryDob2 2 2 s <|> tryDob2 2 1 s <|> tryDob2 1 2 s <|> tryDob2 1 1 s

/-- The range check of `extract_dob`: day 1-31, month 1-12, year 1920-2010. -/
def dobRanges (day month year : Nat) : Bool :=
  1 ≤ day && day ≤ 31 && 1 ≤ month && month ≤ 12 && 1920 ≤ year && year ≤ 2010

/-- `f"{day:02d}/{month:02d}/{year}"`. -/
def formatDate (day month year : Nat) : List Char :=
  pad2 day ++ '/' :: pad2 month ++ '/' :: Nat.toDigits 10 year

/-- `(day, month, year)` of a match triple, disambiguated by the width of the
first group (`len(str(match[0])) == 4` means year first). -/
def dobTriple (g : List Char × List Char × List Char) : Nat × Nat × Nat :=
  if g.1.length = 4 then (digitsToNat g.2.2, digitsToNat g.2.1, digitsToNat g.1)
  else (digitsToNat g.1, digitsToNat g.2.1, digitsToNat g.2.2)

/-- The `valid_dates` list of `extract_dob`, in append order: matches of the two
patterns in pattern order then text order, disambiguated by the 4-digit year
group, filtered by the range check. -/
def dobCandidates (text : List Char) : List (List Char) :=
  (findall matchDob1 text ++ findall matchDob2 text).flatMap fun g =>
    if dobRanges (dobTriple g).1 (dobTriple g).2.1 (dobTriple g).2.2 then
      [formatDate (dobTriple g).1 (dobTriple g).2.1 (dobTriple g).2.2]
    else []

/-- `extract_dob`: first date-shaped match passing the range check, normalized. -/
def extract_dob (text : String) : Option String :=
  ((dobCandidates text.data).head?).map List.asString

/-! ## Document-number extractor -/

def skipWsL (s : List Char) : List Char := s.dropWhile isWsCh

/-- Word boundary against the previous character. -/
def boundaryB (prev : Option Char) : Bool :=
  match prev with
  | none => true
  | some c => !isWordCh c

/-- Word boundary against the next character. -/
def boundaryA (s : List Char) : Bool :=
  match s.head? with
  | none => true
  | some c => !isWordCh c

/-- Match a sequence of literals separated by `\s*` starting here. -/
def litWsSeqAt : List (List Char) → List Char → Bool
  | [], _ => true
  | lit :: rest, s => matchesAt lit s && litWsSeqAt rest (skipWsL (s.drop lit.length))

def existsLitWsSeq (parts : List (List Char)) (s : List Char) : Bool :=
  (List.range (s.length + 1)).any fun i => litWsSeqAt parts (s.drop i)

/-- `re.search(r'Permanent\s*Account\s*Number|^\s*PAN\b|Account\s*Number\s*Card', line, re.IGNORECASE)`. -/
def searchPanLabelLine (line : List Char) : Bool :=
  let u := pyUpper line
  existsLitWsSeq ["PERMANENT".data, "ACCOUNT".data, "NUMBER".data] u ||
  (let t := skipWsL u
   matchesAt "PAN".data t && boundaryA (t.drop 3)) ||
  existsLitWsSeq ["ACCOUNT".data, "NUMBER".data, "CARD".data] u

/-- Digit or a digit-lookalike letter (`'OILSZG'`). -/
def looseDigit (c : Char) : Bool := isDigitCh c || ['O', 'I', 'L', 'S', 'Z', 'G'].contains c

/-- The positional character-class test of strategy 1: 0-4 alphabetic,
5-8 digit-or-lookalike, 9 alphabetic. -/
def panShapeLoose (p : List Char) : Bool :=
  isAlphaCh (p.getD 0 ' ') && isAlphaCh (p.getD 1 ' ') && isAlphaCh (p.getD 2 ' ') &&
  isAlphaCh (p.getD 3 ' ') && isAlphaCh (p.getD 4 ' ') &&
  looseDigit (p.getD 5 ' ') && looseDigit (p.getD 6 ' ') && looseDigit (p.getD 7 ' ') &&
  looseDigit (p.getD 8 ' ') && isAlphaCh (p.getD 9 ' ')

/-- Strategy 1 of `extract_pan_number`: label-anchored sliding window over the
label line and the next two lines. -/
def pan_strategy1 (lines : List (List Char)) : List (List Char) :=
  (List.range lines.length).flatMap fun i =>
    if searchPanLabelLine (lines.getD i []) then
      (List.range (min 3 (lines.length - i))).flatMap fun j =>
        if 10 ≤ (removeWs (lines.getD (i + j) [])).length then
          (List.range ((removeWs (lines.getD (i + j) [])).length - 9)).flatMap fun k =>
            if panShapeLoose (((removeWs (lines.getD (i + j) [])).drop k).take 10) then
              if panGrammarChars
                  (fixPanChars (((removeWs (lines.getD (i + j) [])).drop k).take 10)) then
                [fixPanChars (((removeWs (lines.getD (i + j) [])).drop k).take 10)]
              else []
            else []
        else []
    else []

/-- `\b([A-Z]{5}[0-9]{4}[A-Z])\b`. -/
def matchPanPat1 (prev : Option Char) (s : List Char) : Option (List Char × Nat) :=
  if boundaryB prev then
    let m := s.take 10
    if m.length = 10 ∧ (m.take 5).all isAsciiUpper ∧ ((m.drop 5).take 4).all isDigitCh ∧
        (m.drop 9).all isAsciiUpper ∧ boundaryA (s.drop 10) then
      some (m, 10)
    else none
  else none

/-- `\b([A-Z]{5}\s*[0-9]{4}\s*[A-Z])\b`. -/
def matchPanPat2 (prev : Option Char) (s : List Char) : Option (List Char × Nat) :=
  if boundaryB prev then
    let a := s.take 5
    if a.length = 5 ∧ a.all isAsciiUpper then
      let r1 := s.drop 5
      let w1 := (r1.takeWhile isWsCh).length
      let r2 := r1.drop w1
      let d := r2.take 4
      if d.length = 4 ∧ d.all isDigitCh then
        let r3 := r2.drop 4
        let w2 := (r3.takeWhile isWsCh).length
        let r4 := r3.drop w2
        match r4.head? with
        | some c =>
          if isAsciiUpper c ∧ boundaryA (r4.drop 1) then
            some (s.take (5 + w1 + 4 + w2 + 1), 5 + w1 + 4 + w2 + 1)
          else none
        | none => none
      else none
    else none
  else none

/-- Strategy 2 of `extract_pan_number`: both grammar regexes swept over the whole
text, in pattern order, each match whitespace-stripped, corrected, validated and
deduplicated. -/
def pan_strategy2 (text : List Char) : List (List Char) :=
  (findall matchPanPat1 text ++ findall matchPanPat2 text).foldl
    (fun acc m =>
      if panGrammarChars (fixPanChars (removeWs m)) ∧
          ¬acc.contains (fixPanChars (removeWs m)) then
        acc ++ [fixPanChars (removeWs m)]
      else acc)
    []

def pan_exclude_keywords : List (List Char) :=
  ["INCOMETAXDEPARTMENT".data, "GOVERNMENTOF".data, "ACCOUNTNUMBER".data,
   "PERMANENTACCOUNT".data, "CARDSIGNATURE".data]

/-- Strategy 3 of `extract_pan_number`: unanchored 10-character sliding window
over the whitespace-stripped text, with a false-positive context filter. -/
def pan3_step (tns : List Char) (acc : List (List Char)) (i : Nat) : List (List Char) :=
  if pan_exclude_keywords.any
      (fun k => containsSub ((tns.drop (i - 20)).take (i + 15 - (i - 20))) k) then acc
  else
    if 5 ≤ (((tns.drop i).take 10).filter isAlphaCh).length ∧
        4 ≤ (((tns.drop i).take 10).filter isDigitCh).length +
          (((tns.drop i).take 10).filter
            (fun c => ['O', 'I', 'L', 'S', 'Z', 'G'].contains c)).length then
      if panGrammarChars (fixPanChars ((tns.drop i).take 10)) ∧
          ¬acc.contains (fixPanChars ((tns.drop i).take 10)) then
        acc ++ [fixPanChars ((tns.drop i).take 10)]
      else acc
    else acc

def pan_strategy3 (text : List Char) : List (List Char) :=
  (List.range ((removeWs text).length - 9)).foldl (pan3_step (removeWs text)) []

/-- `extract_pan_number`: first valid candidate, strategies tried in order. -/
def extract_pan_number (text : String) : Option String :=
  match (pan_strategy1 (splitNl (pyUpper text.data))).head? with
  | some v => some v.asString
  | none =>
    match (pan_strategy2 (pyUpper text.data)).head? with
    | some v => some v.asString
    | none => ((pan_strategy3 (pyUpper text.data)).head?).map List.asString

/-! ## Name cleaning -/

/-- The digit-to-letter map shared by `_clean_name` and `_correct_name_ocr_errors`. -/
def name_digit_corrections : List (Char × Char) :=
  [('0', 'O'), ('1', 'I'), ('5', 'S'), ('8', 'B'), ('3', 'E')]

def replaceAll (l : List Char) (m : List (Char × Char)) : List Char :=
  l.map fun c => (alookup c m).getD c

/-- `re.sub(r'\s+', ' ', s.strip())`. -/
def collapseWs (l : List Char) : List Char := joinSp (splitWs l)

def allSameChar : List Char → Bool
  | [] => true
  | c :: cs => cs.all (· = c)

/-- `_correct_name_ocr_errors`: uppercase, digit-to-letter fixes, strip (the
two-letter pattern table in the source is dead code guarded by `pass`). -/
def _correct_name_ocr_errorsChars (name : List Char) : List Char :=
  trimWs (replaceAll (pyUpper name) name_digit_corrections)

/-- `_clean_name`: collapse whitespace, uppercase, digit-to-letter fixes, drop
words made of one repeated character. -/
def cleanName (name : List Char) : List Char :=
  let n := pyUpper (collapseWs name)
  let n := replaceAll n name_digit_corrections
  let n := _correct_name_ocr_errorsChars n
  joinSp ((splitWs n).filter fun w => ¬(allSameChar w ∧ 2 ≤ w.length))

def _clean_name (name : String) : String := (cleanName name.data).asString

/-! ## Candidate lists and stable ranking

A candidate's sort key is encoded as `(rank, dist)` compared lexicographically;
`rank` enumerates the strategy tags in the priority order the Python tuple keys
induce. Python `list.sort` is stable, so `sort` followed by `[0]` is the first
element attaining the minimal key. -/

structure Cand where
  val : List Char
  rank : Nat
  dist : Nat
deriving Repr, DecidableEq

def keyLt (a b : Nat × Nat) : Bool := a.1 < b.1 || (a.1 = b.1 && a.2 < b.2)

/-- `candidates.sort(key=...)` then `candidates[0]`: the first candidate with
the minimal key, `none` on an empty list. -/
def pickBest : List Cand → Option Cand
  | [] => none
  | c :: cs =>
    some (cs.foldl (fun b x => if keyLt (x.rank, x.dist) (b.rank, b.dist) then x else b) c)

/-! ## Primary-name extractor -/

/-- Case-insensitive literal prefix test (`lit` given uppercase). -/
def ciLit (lit s : List Char) : Bool := matchesAt lit (pyUpper s)

/-- `Father'?s?\s*Name` at the head of `s` (case-insensitive); returns the
remainder after `Name` on success. -/
def matchFatherNameAt (s : List Char) : Option (List Char) :=
  if ciLit "FATHER".data s then
    let r := s.drop 6
    let r := if r.head? = some '\'' then r.drop 1 else r
    let r := if (r.head?.map pyUpperCh) = some 'S' then r.drop 1 else r
    let r := skipWsL r
    if ciLit "NAME".data r then some (r.drop 4) else none
  else none

/-- `re.search(r"(Father'?s?\s*Name|/FN|F/FN)", line, re.IGNORECASE)` as a Boolean. -/
def fatherLabelSearchName (line : List Char) : Bool :=
  ((List.range (line.length + 1)).any fun i => (matchFatherNameAt (line.drop i)).isSome) ||
  containsSub (pyUpper line) "/FN".data

def name_noise_words : List (List Char) :=
  ["TAX".data, "DEPT".data, "INCOME".data, "GOVT".data, "CARD".data, "NUMBER".data]

/-- The `name_words` accumulation loop of strategy 1: keep plausible name words
from the first four, stopping at a noise word once two names are collected. -/
def takeNameWords : List (List Char) → List (List Char) → List (List Char)
  | [], acc => acc
  | w :: ws, acc =>
    if 3 ≤ w.length ∧ ¬(name_noise_words.any fun p => containsSub w p) then
      takeNameWords ws (acc ++ [w])
    else if 2 ≤ acc.length then acc
    else takeNameWords ws acc

/-- `re.sub(r'[^A-Z\s]', '', line.upper()).strip()`. -/
def keepUpperWs (line : List Char) : List Char :=
  trimWs ((pyUpper line).filter fun c => isAsciiUpper c || isWsCh c)

/-- Strategy 1 of `extract_name`: the line just before the first secondary-name
label. -/
def nameStrategy1 (cleaned : List (List Char)) : List Cand :=
  match cleaned.findIdx? (fun l => fatherLabelSearchName l) with
  | some fi =>
    if 0 < fi then
      if 2 ≤ (splitWs (keepUpperWs (cleaned.getD (fi - 1) []))).length then
        if 2 ≤ (takeNameWords ((splitWs (keepUpperWs (cleaned.getD (fi - 1) []))).take 4)
            []).length then
          if validNameChars
              (cleanName (joinSp (takeNameWords
                ((splitWs (keepUpperWs (cleaned.getD (fi - 1) []))).take 4) [])))
              false then
            [⟨cleanName (joinSp (takeNameWords
              ((splitWs (keepUpperWs (cleaned.getD (fi - 1) []))).take 4) [])), 0, 0⟩]
          else []
        else []
      else []
    else []
  | none => []

/-- `re.search(r'\bName\b', line, re.IGNORECASE)` and the negative
`Father|Mother|F/|/FN` filter. -/
def nameLabelLine (line : List Char) : Bool :=
  let u := pyUpper line
  ((List.range u.length).any fun i =>
    boundaryB ((u.take i).getLast?) && matchesAt "NAME".data (u.drop i) &&
    boundaryA (u.drop (i + 4))) &&
  ¬(["FATHER".data, "MOTHER".data, "F/".data, "/FN".data].any fun p => containsSub u p)

def nameStopLabel (line : List Char) : Bool :=
  let u := pyUpper line
  ["FATHER".data, "MOTHER".data, "F/".data, "/FN".data, "DATE".data, "BIRTH".data,
   "SIGNATURE".data, "ADDRESS".data].any fun p => containsSub u p

/-- The inner line scan of strategy 2, with its `break` on another label. -/
def nameScanGo (cleaned : List (List Char)) (i : Nat) : List Nat → List Cand
  | [] => []
  | j :: js =>
    if nameStopLabel (cleaned.getD (i + j) []) then []
    else
      (if ¬(keepUpperWs (cleaned.getD (i + j) [])).isEmpty ∧
          5 ≤ (keepUpperWs (cleaned.getD (i + j) [])).length then
        if validNameChars (cleanName (keepUpperWs (cleaned.getD (i + j) []))) false then
          [⟨cleanName (keepUpperWs (cleaned.getD (i + j) [])), 1, j⟩]
        else []
      else []) ++ nameScanGo cleaned i js

/-- Strategy 2 of `extract_name`: scan up to three lines after a generic name label. -/
def nameStrategy2 (cleaned : List (List Char)) : List Cand :=
  (List.range cleaned.length).flatMap fun i =>
    if nameLabelLine (cleaned.getD i []) then
      nameScanGo cleaned i (List.range' 1 (min 4 (cleaned.length - i) - 1))
    else []

/-- `\b([A-Z]{3,}\s+[A-Z]{3,}(?:\s+[A-Z]{3,})?)\b`. -/
def matchNamePat3 (prev : Option Char) (s : List Char) : Option (List Char × Nat) :=
  if boundaryB prev then
    let r1 := s.takeWhile isAsciiUpper
    if 3 ≤ r1.length then
      let s1 := s.drop r1.length
      let w1 := (s1.takeWhile isWsCh).length
      if 1 ≤ w1 then
        let s2 := s1.drop w1
        let r2 := s2.takeWhile isAsciiUpper
        if 3 ≤ r2.length then
          let s3 := s2.drop r2.length
          let w2 := (s3.takeWhile isWsCh).length
          let s4 := s3.drop w2
          let r3 := s4.takeWhile isAsciiUpper
          if 1 ≤ w2 ∧ 3 ≤ r3.length ∧ boundaryA (s4.drop r3.length) then
            let len := r1.length + w1 + r2.length + w2 + r3.length
            some (s.take len, len)
          else if boundaryA s3 then
            let len := r1.length + w1 + r2.length
            some (s.take len, len)
          else none
        else none
      else none
    else none
  else none

/-- Strategy 3 of `extract_name`: first valid multi-word all-caps run, stopping
at the first valid one. -/
def nameStrategy3 (cleaned : List (List Char)) : List Cand :=
  match (findall matchNamePat3 (joinSp cleaned)).findSome? (fun m =>
      if validNameChars (cleanName m) false then some (cleanName m) else none) with
  | some cn => [⟨cn, 2, 0⟩]
  | none => []

/-- The `cleaned_lines` both name extractors start from. -/
def cleanedLines (text : List Char) : List (List Char) :=
  ((splitNl text).map trimWs).filter fun l => ¬l.isEmpty

/-- The full candidate list of `extract_name` (later strategies gated on the
earlier ones yielding nothing). -/
def nameCandidates (text : List Char) : List Cand :=
  if ¬(nameStrategy1 (cleanedLines text)).isEmpty then nameStrategy1 (cleanedLines text)
  else if ¬(nameStrategy2 (cleanedLines text)).isEmpty then
    nameStrategy2 (cleanedLines text)
  else nameStrategy3 (cleanedLines text)

/-- `extract_name`: best-ranked valid primary-name candidate. -/
def extract_name (text : String) : Option String :=
  (pickBest (nameCandidates text.data)).map fun c => c.val.asString

/-! ## Secondary-name (father's name) extractor -/

/-- `पिता\s*का\s*नाम` at the head of `s`; returns the remainder. -/
def devaLabelAt (s : List Char) : Option (List Char) :=
  if matchesAt "पिता".data s then
    let r := skipWsL (s.drop 4)
    if matchesAt "का".data r then
      let r := skipWsL (r.drop 2)
      if matchesAt "नाम".data r then some (r.drop 3) else none
    else none
  else none

/-- `re.search(r"Father'?s?\s*Name|FN\b|पिता\s*का\s*नाम", line, re.IGNORECASE)`. -/
def fatherLabelSearchFn (line : List Char) : Bool :=
  ((List.range (line.length + 1)).any fun i =>
    (matchFatherNameAt (line.drop i)).isSome ||
    (ciLit "FN".data (line.drop i) && boundaryA (line.drop (i + 2))) ||
    (devaLabelAt (line.drop i)).isSome)

/-- The remainders after each label alternative of the same-line regex, in
alternation order (its `FN` alternative has no trailing `\b`). -/
def sameLineLabelRemainders (s : List Char) : List (List Char) :=
  (match matchFatherNameAt s with | some r => [r] | none => []) ++
  (if ciLit "FN".data s then [s.drop 2] else []) ++
  (match devaLabelAt s with | some r => [r] | none => [])

def isColonWsSlash (c : Char) : Bool := c = ':' || c = '/' || isWsCh c

/-- `(?:\s+\d|\s*$)`: only whitespace remains, or at least one whitespace
followed by a digit. -/
def sameLineTailOk (s : List Char) : Bool :=
  let w := (s.takeWhile isWsCh).length
  (s.drop w).isEmpty ||
  (1 ≤ w && (match (s.drop w).head? with | some c => isDigitCh c | none => false))

/-- The lazy `[A-Z\s]+?` extension (case-insensitive): grow the group one
character at a time until the tail matches. -/
def lazyGroup (acc : List Char) : List Char → Option (List Char)
  | [] => none
  | c :: cs =>
    if isAlphaCh c || isWsCh c then
      if sameLineTailOk cs then some (acc ++ [c]) else lazyGroup (acc ++ [c]) cs
    else none

/-- The full same-line value regex
`(?:Father'?s?\s*Name|FN|पिता\s*का\s*नाम)[:\s/]+([A-Z][A-Z\s]+?)(?:\s+\d|\s*$)`
anchored at the head of `s`; returns `group(1)`. -/
def sameLineMatchAt (s : List Char) : Option (List Char) :=
  (sameLineLabelRemainders s).findSome? fun r =>
    let w := (r.takeWhile isColonWsSlash).length
    if 1 ≤ w then
      match r.drop w with
      | c :: cs => if isAlphaCh c then lazyGroup [c] cs else none
      | [] => none
    else none

/-- `re.search` of the same-line value regex: leftmost match's `group(1)`. -/
def searchSameLineFather (line : List Char) : Option (List Char) :=
  (List.range (line.length + 1)).findSome? fun i => sameLineMatchAt (line.drop i)

def fatherStopLabel (line : List Char) : Bool :=
  let u := pyUpper line
  ["DATE".data, "BIRTH".data, "SIGNATURE".data, "ADDRESS".data, "जन्म".data].any
    fun p => containsSub u p

/-- Strategy ranks of `extract_father_name` in the priority order of its sort
key: `single_word_match` 0, `same_line` 1, `last_word_extraction` 2, `label` 3,
`single_word_pattern` 4. -/
def rankSWM : Nat := 0
def rankSameLine : Nat := 1
def rankLastWord : Nat := 2
def rankLabel : Nat := 3
def rankSWP : Nat := 4

/-- The candidate (if any) one follow-up line of strategy 1 of
`extract_father_name` contributes, including the `single_word_match` special
case. -/
def fatherLineCand (person : Option (List Char)) (nlc : List Char) (j : Nat) :
    List Cand :=
  if ¬nlc.isEmpty ∧ 3 ≤ nlc.length then
    if validNameChars (cleanName nlc) true ∧ ¬(person = some (cleanName nlc)) then
      match person with
      | some p =>
        if (splitWs (cleanName nlc)).length = 1 then
          if 1 < (splitWs p).length ∧ (splitWs p).contains (cleanName nlc) then
            [⟨cleanName nlc, rankSWM, j⟩]
          else []
        else [⟨cleanName nlc, rankLabel, j⟩]
      | none => [⟨cleanName nlc, rankLabel, j⟩]
    else []
  else []

/-- The follow-up line scan of strategy 1 of `extract_father_name`, with its
`break` on another label. -/
def fatherScanGo (cleaned : List (List Char)) (person : Option (List Char)) (i : Nat) :
    List Nat → List Cand
  | [] => []
  | j :: js =>
    if fatherStopLabel (cleaned.getD (i + j) []) then []
    else
      fatherLineCand person (keepUpperWs (cleaned.getD (i + j) [])) j ++
        fatherScanGo cleaned person i js

/-- Strategy 1 of `extract_father_name` for one label line: same-line value
first, then the follow-up lines. -/
def fatherStrategy1Line (cleaned : List (List Char)) (person : Option (List Char))
    (i : Nat) : List Cand :=
  if fatherLabelSearchFn (cleaned.getD i []) then
    (match searchSameLineFather (cleaned.getD i []) with
      | some grp =>
        if ¬(trimWs ((trimWs grp).filter fun c => isAsciiUpper c || isWsCh c)).isEmpty ∧
            3 ≤ (trimWs ((trimWs grp).filter fun c => isAsciiUpper c || isWsCh c)).length then
          if validNameChars
              (cleanName (trimWs ((trimWs grp).filter fun c =>
                isAsciiUpper c || isWsCh c))) true ∧
              ¬(person = some (cleanName (trimWs ((trimWs grp).filter fun c =>
                isAsciiUpper c || isWsCh c)))) then
            [⟨cleanName (trimWs ((trimWs grp).filter fun c =>
              isAsciiUpper c || isWsCh c)), rankSameLine, 0⟩]
          else []
        else []
      | none => []) ++
    fatherScanGo cleaned person i (List.range' 1 (min 3 (cleaned.length - i) - 1))
  else []

/-- Strategy 2 of `extract_father_name`: last word of the primary name. -/
def fatherStrategy2 (person : Option (List Char)) : List Cand :=
  match person with
  | some p =>
    if 2 ≤ (splitWs p).length then
      if 3 ≤ ((splitWs p).getLastD []).length ∧
          validNameChars ((splitWs p).getLastD []) true then
        [⟨(splitWs p).getLastD [], rankLastWord, 0⟩]
      else []
    else []
  | none => []

/-- `\b([A-Z]{4,})\b`. -/
def matchSingleWord (prev : Option Char) (s : List Char) : Option (List Char × Nat) :=
  if boundaryB prev then
    let r := s.takeWhile isAsciiUpper
    if 4 ≤ r.length ∧ boundaryA (s.drop r.length) then some (r, r.length) else none
  else none

def father_admin_words : List (List Char) :=
  ["INCOME".data, "GOVERNMENT".data, "DEPARTMENT".data, "PERMANENT".data,
   "ACCOUNT".data, "NUMBER".data, "CARD".data, "INDIA".data]

/-- Strategy 3 of `extract_father_name`: isolated 4+ letter uppercase words. -/
def fatherStrategy3 (cleaned : List (List Char)) (person : Option (List Char)) :
    List Cand :=
  (findall matchSingleWord (joinSp cleaned)).foldl
    (fun acc m =>
      if validNameChars (cleanName m) true ∧ ¬(person = some (cleanName m)) ∧
          ¬((acc.map Cand.val).contains (cleanName m)) then
        if ¬(father_admin_words.any fun p => containsSub (cleanName m) p) then
          acc ++ [⟨cleanName m, rankSWP, 0⟩]
        else acc
      else acc)
    []

/-- The full candidate list of `extract_father_name`. -/
def fatherS1 (text : List Char) : List Cand :=
  (List.range (cleanedLines text).length).flatMap fun i =>
    fatherStrategy1Line (cleanedLines text) ((pickBest (nameCandidates text)).map Cand.val) i

def fatherCandidates (text : List Char) : List Cand :=
  if ¬(fatherS1 text).isEmpty then fatherS1 text
  else if ¬(fatherStrategy2 ((pickBest (nameCandidates text)).map Cand.val)).isEmpty then
    fatherStrategy2 ((pickBest (nameCandidates text)).map Cand.val)
  else fatherStrategy3 (cleanedLines text) ((pickBest (nameCandidates text)).map Cand.val)

/-- `extract_father_name`: best-ranked valid secondary-name candidate. -/
def extract_father_name (text : String) : Option String :=
  (pickBest (fatherCandidates text.data)).map fun c => c.val.asString

/-! ## Ensemble voting

`ensemble_tesseract_bytes` is modelled as a function of the list of
`(text, confidence)` recognition attempts; confidences (Python floats) are
modelled as rationals, of which only the ordering is used. -/

/-- The keys of `Counter(texts)` in insertion order (first occurrences). -/
def dedupKeys (texts : List String) : List String :=
  texts.foldl (fun acc t => if acc.contains t then acc else acc ++ [t]) []

/-- Python `max(l, key=f)`: the first element attaining the maximal key. -/
def maxByFirst {α β : Type} [LinearOrder β] (f : α → β) : List α → Option α
  | [] => none
  | x :: xs => some (xs.foldl (fun b y => if f b < f y then y else b) x)

/-- `texts = [t for t, _ in results if t]`: the attempts that yielded text. -/
def retainedTexts (results : List (String × Rat)) : List String :=
  (results.filter fun r => ¬(r.1 = "")).map Prod.fst

/-- The text of the attempt Python `max(results, key=lambda x: x[1])` picks
(over all attempts, empty-text ones included). -/
def maxConfText (results : List (String × Rat)) : String :=
  match maxByFirst Prod.snd results with
  | some best => best.1
  | none => ""

/-- The voting core of `ensemble_tesseract_bytes`: majority text among the
non-empty attempts, highest-confidence attempt when all retained texts differ. -/
def ensemble_vote (results : List (String × Rat)) : String :=
  if (retainedTexts results).isEmpty then ""
  else
    match maxByFirst (fun t => (retainedTexts results).count t)
        (dedupKeys (retainedTexts results)) with
    | none => ""
    | some mct =>
      if (retainedTexts results).count mct = 1 ∧
          (dedupKeys (retainedTexts results)).length = (retainedTexts results).length then
        maxConfText results
      else mct

/-! ## Top-level pipeline

The external collaborators (image decoding, Tesseract) are modelled by an
environment recording, for one input image, whether the bytes decode, the
`(text, confidence)` pairs the ensemble runs produce, the per-configuration
recognition outputs (`none` = that call raised), and the encoded photo crop. -/

structure OCREnv where
  decodeOk : Bool
  attempts : List (String × Rat)
  configTexts : List (Option String)
  photo : Option String

/-- `ensemble_tesseract_bytes`: `""` when the bytes do not decode (the
catch-all handler), otherwise the vote over the attempts. -/
def ensemble_tesseract_bytes (env : OCREnv) : String :=
  if env.decodeOk then ensemble_vote env.attempts else ""

/-- `extract_text_with_tesseract`: optional ensemble pass, then the
multi-variant sweep concatenating all non-blank outputs, with an ensemble
fallback; `""` when the image bytes do not decode (`preprocess_image_methods`
re-raises from its handler and the enclosing `except` returns `""`). -/
def extract_text_with_tesseract (env : OCREnv) (use_ensemble : Bool) : String :=
  let ens := if use_ensemble then ensemble_tesseract_bytes env else ""
  if use_ensemble ∧ ¬(ens = "") then ens
  else if ¬env.decodeOk then ""
  else
    let all_texts := env.configTexts.filterMap fun t =>
      match t with
      | some s => if (trimWs s.data).isEmpty then none else some s
      | none => none
    let all_texts :=
      if all_texts.isEmpty then
        let e := ensemble_tesseract_bytes env
        if e = "" then [] else [e]
      else all_texts
    (joinNl (all_texts.map String.data)).asString

/-- `extract_photo_from_pan`: `None` when the bytes do not decode (its own
catch-all), otherwise the fixed-ratio crop re-encoded. -/
def extract_photo_from_pan (env : OCREnv) : Option String :=
  if env.decodeOk then env.photo else none

/-- Python values appearing in the result dict. -/
inductive PyVal where
  | pyNone : PyVal
  | pyStr : String → PyVal
  | pyBool : Bool → PyVal
deriving Repr, DecidableEq

def pyOpt : Option String → PyVal
  | none => .pyNone
  | some s => .pyStr s

/-- The `try` body of `extract_pan_data`; every sub-call is total (each catches
its own exceptions), so the body never raises in the model. -/
def extract_pan_data_body (env : OCREnv) (use_ensemble : Bool) :
    Except String (List (String × PyVal)) := do
  let t := extract_text_with_tesseract env use_ensemble
  pure [("pan_number", pyOpt (extract_pan_number t)),
        ("name", pyOpt (extract_name t)),
        ("father_name", pyOpt (extract_father_name t)),
        ("dob", pyOpt (extract_dob t)),
        ("pan_photo_base64", pyOpt (extract_photo_from_pan env)),
        ("raw_text", .pyStr t),
        ("success", .pyBool true)]

/-- `extract_pan_data`: the result dict, with the catch-all `except` producing
the error dict. -/
def extract_pan_data (env : OCREnv) (use_ensemble : Bool) : List (String × PyVal) :=
  match extract_pan_data_body env use_ensemble with
  | .ok d => d
  | .error e =>
    [("error", .pyStr ("Error processing PAN card data: " ++ e)),
     ("success", .pyBool false)]

def dictKeys (d : List (String × PyVal)) : List String := d.map Prod.fst

def dictLookup (d : List (String × PyVal)) (k : String) : Option PyVal :=
  (d.find? fun p => p.1 = k).map Prod.snd

/-- The per-character effect of the digit-zone loop. -/
def digitFixChar (c : Char) : Char := (alookup c digit_corrections).getD c

/-- The per-character effect of the letter-zone loop. -/
def letterFixChar (c : Char) : Char :=
  if isDigitCh c then (alookup c letter_corrections).getD c else c

/-- Defined from the claim's wording, to be compared with the fold-based
`_fix_pan_ocr_errors`: the whole string is uppercased, then positions 5-8 get
the letter-to-digit fix and positions 0-4 and 9 the digit-to-letter fix. -/
def fixPanSpecChar (i : Nat) (c : Char) : Char :=
  if 5 ≤ i ∧ i ≤ 8 then digitFixChar c
  else if i ≤ 4 ∨ i = 9 then letterFixChar c
  else c

def fixPanSpecGo (i : Nat) : List Char → List Char
  | [] => []
  | c :: cs => fixPanSpecChar i c :: fixPanSpecGo (i + 1) cs

/-- Defined from the claim's wording: uppercase first, then positional
correction. Applies when the input has at least 10 characters. -/
def _fix_pan_ocr_errorsSpec (pan : String) : String :=
  (fixPanSpecGo 0 (pyUpper pan.data)).asString

/-- The code's consonant class: not a vowel, not a space or hyphen. -/
def isConsCh (c : Char) : Bool := !isVowelCh c && !(c = ' ') && !(c = '-')

/-- `n` consecutive characters satisfying `p` occur somewhere in the word. -/
def hasRun (p : Char → Bool) (n : Nat) : List Char → Bool
  | [] => decide (n = 0)
  | c :: cs => (((c :: cs).take n).length = n && ((c :: cs).take n).all p) || hasRun p n cs

/-- The selection fold of `pickBest`. -/
def pickStep (b x : Cand) : Cand := if keyLt (x.rank, x.dist) (b.rank, b.dist) then x else b

/-! # Helper lemmas -/

theorem asString_data (s : String) : s.data.asString = s := rfl

theorem string_length_eq (s : String) : s.length = s.data.length := rfl

theorem digit_bounds {c : Char} (h : isDigitCh c = true) : 48 ≤ c.toNat ∧ c.toNat ≤ 57 := by
  simp only [isDigitCh, Bool.and_eq_true, decide_eq_true_eq] at h
  exact h

theorem upper_bounds {c : Char} (h : isAsciiUpper c = true) :
    65 ≤ c.toNat ∧ c.toNat ≤ 90 := by
  simp only [isAsciiUpper, Bool.and_eq_true, decide_eq_true_eq] at h
  exact h

theorem alookup_eq_none_of_ne {c : Char} {m : List (Char × Char)}
    (h : ∀ p ∈ m, c ≠ p.1) : alookup c m = none := by
  induction m with
  | nil => rfl
  | cons p ps ih =>
    simp only [alookup]
    rw [if_neg (h p (by simp))]
    exact ih fun q hq => h q (by simp [hq])

theorem digit_corrections_keys_upper :
    digit_corrections.all (fun p => 65 ≤ p.1.toNat && p.1.toNat ≤ 90) = true := by decide

theorem alookup_digit_corrections_of_digit {c : Char} (h : isDigitCh c = true) :
    alookup c digit_corrections = none := by
  have hc := digit_bounds h
  apply alookup_eq_none_of_ne
  intro p hp hcp
  have hk := List.all_eq_true.mp digit_corrections_keys_upper p hp
  simp only [Bool.and_eq_true, decide_eq_true_eq] at hk
  rw [hcp] at hc
  omega

theorem isDigitCh_false_of_upper {c : Char} (h : isAsciiUpper c = true) :
    isDigitCh c = false := by
  have hc := upper_bounds h
  cases hd : isDigitCh c
  · rfl
  · have := digit_bounds hd
    omega

theorem pyUpperCh_of_upper {c : Char} (h : isAsciiUpper c = true) : pyUpperCh c = c := by
  have hc := upper_bounds h
  simp only [pyUpperCh]
  rw [if_neg]
  omega

theorem pyUpperCh_of_digit {c : Char} (h : isDigitCh c = true) : pyUpperCh c = c := by
  have hc := digit_bounds h
  simp only [pyUpperCh]
  rw [if_neg]
  omega

/-! # Positional characterization of `_fix_pan_ocr_errors` (claims C10, C5) -/

theorem digitFixAt_getElem? (r : List Char) (j i : Nat) :
    (digitFixAt r j)[i]? = if j = i then r[i]?.map digitFixChar else r[i]? := by
  by_cases hji : j = i
  · subst hji
    rw [if_pos rfl]
    cases hj : r[j]? with
    | none => simp only [digitFixAt, hj]; rfl
    | some c =>
      have hjl : j < r.length := (List.getElem?_eq_some.mp hj).1
      cases hl : alookup c digit_corrections with
      | none =>
        simp only [digitFixAt, hj, hl]
        simp [digitFixChar, hl]
      | some d =>
        simp only [digitFixAt, hj, hl]
        rw [List.getElem?_set, if_pos rfl, if_pos hjl]
        simp [digitFixChar, hl]
  · rw [if_neg hji]
    cases hj : r[j]? with
    | none => simp only [digitFixAt, hj]
    | some c =>
      cases hl : alookup c digit_corrections with
      | none => simp only [digitFixAt, hj, hl]
      | some d =>
        simp only [digitFixAt, hj, hl]
        rw [List.getElem?_set, if_neg hji]

theorem letterFixAt_getElem? (r : List Char) (j i : Nat) :
    (letterFixAt r j)[i]? = if j = i then r[i]?.map letterFixChar else r[i]? := by
  by_cases hji : j = i
  · subst hji
    rw [if_pos rfl]
    cases hj : r[j]? with
    | none => simp only [letterFixAt, hj]; rfl
    | some c =>
      have hjl : j < r.length := (List.getElem?_eq_some.mp hj).1
      by_cases hd : isDigitCh c = true
      · simp only [letterFixAt, hj, hd, if_true]
        rw [List.getElem?_set, if_pos rfl, if_pos hjl]
        simp [letterFixChar, hd]
      · have hd' : isDigitCh c = false := by
          cases hx : isDigitCh c
          · rfl
          · exact absurd hx hd
        simp only [letterFixAt, hj, hd', Bool.false_eq_true, if_false]
        simp [letterFixChar, hd']
  · rw [if_neg hji]
    cases hj : r[j]? with
    | none => simp only [letterFixAt, hj]
    | some c =>
      by_cases hd : isDigitCh c = true
      · simp only [letterFixAt, hj, hd, if_true]
        rw [List.getElem?_set, if_neg hji]
      · have hd' : isDigitCh c = false := by
          cases hx : isDigitCh c
          · rfl
          · exact absurd hx hd
        simp only [letterFixAt, hj, hd', Bool.false_eq_true, if_false]

theorem fixPanChars_getElem? (pan : List Char) (h : ¬pan.length < 10) (i : Nat) :
    (fixPanChars pan)[i]? = ((pyUpper pan)[i]?).map (fixPanSpecChar i) := by
  unfold fixPanChars
  rw [if_neg h]
  simp only [List.foldl_cons, List.foldl_nil]
  simp only [letterFixAt_getElem?, digitFixAt_getElem?]
  rcases Nat.lt_or_ge i 10 with hi | hi
  · cases hc : (pyUpper pan)[i]? with
    | none => simp
    | some c => interval_cases i <;> simp [fixPanSpecChar, digitFixChar, letterFixChar]
  · have hni : ∀ k : Nat, k < 10 → ¬(k = i) := fun k hk he => by omega
    rw [if_neg (hni 9 (by norm_num)), if_neg (hni 4 (by norm_num)),
      if_neg (hni 3 (by norm_num)), if_neg (hni 2 (by norm_num)),
      if_neg (hni 1 (by norm_num)), if_neg (hni 0 (by norm_num)),
      if_neg (hni 8 (by norm_num)), if_neg (hni 7 (by norm_num)),
      if_neg (hni 6 (by norm_num)), if_neg (hni 5 (by norm_num))]
    cases hc : (pyUpper pan)[i]? with
    | none => rfl
    | some c =>
      show some c = some (fixPanSpecChar i c)
      unfold fixPanSpecChar
      rw [if_neg (by omega), if_neg (by omega)]

theorem fixPanSpecGo_getElem? (l : List Char) (k i : Nat) :
    (fixPanSpecGo k l)[i]? = l[i]?.map (fixPanSpecChar (k + i)) := by
  induction l generalizing k i with
  | nil => rfl
  | cons c cs ih =>
    cases i with
    | zero => simp [fixPanSpecGo]
    | succ n =>
      simp only [fixPanSpecGo, List.getElem?_cons_succ, ih (k + 1) n]
      rw [show k + 1 + n = k + (n + 1) by omega]

/-- C10: strings shorter than 10 characters are returned completely unchanged
(not even uppercased); for length at least 10 the whole string is uppercased
first and the positional corrections are then applied at positions 0-4, 5-8,
and 9. -/
theorem fix_pan_short_unchanged_long_positional :
    (∀ s : String, s.length < 10 → _fix_pan_ocr_errors s = s) ∧
    (∀ s : String, 10 ≤ s.length → _fix_pan_ocr_errors s = _fix_pan_ocr_errorsSpec s) := by
  constructor
  · intro s h
    rw [string_length_eq] at h
    unfold _fix_pan_ocr_errors fixPanChars
    rw [if_pos h, asString_data]
  · intro s h
    rw [string_length_eq] at h
    unfold _fix_pan_ocr_errors _fix_pan_ocr_errorsSpec
    congr 1
    apply List.ext_getElem?
    intro i
    rw [fixPanChars_getElem? _ (by omega) i, fixPanSpecGo_getElem?, Nat.zero_add]

/-- Witness for C10 at concrete inputs. -/
theorem fix_pan_short_unchanged_long_positional_witness :
    _fix_pan_ocr_errors "ab1" = "ab1" ∧
    _fix_pan_ocr_errors "abcde123Bz" = _fix_pan_ocr_errorsSpec "abcde123Bz" :=
  ⟨fix_pan_short_unchanged_long_positional.1 "ab1" (by decide),
   fix_pan_short_unchanged_long_positional.2 "abcde123Bz" (by decide)⟩

/-! # C5: correction is the identity on grammar-valid strings -/

/-- C5: `_fix_pan_ocr_errors` returns every string already matching the
`LLLLLDDDDL` grammar unchanged, and hence is idempotent whenever a first
application yields a grammar-valid string. -/
theorem fix_pan_id_on_valid :
    (∀ s : String, _is_valid_pan_format s = true → _fix_pan_ocr_errors s = s) ∧
    (∀ x : String, _is_valid_pan_format (_fix_pan_ocr_errors x) = true →
      _fix_pan_ocr_errors (_fix_pan_ocr_errors x) = _fix_pan_ocr_errors x) := by
  have main : ∀ s : String, _is_valid_pan_format s = true → _fix_pan_ocr_errors s = s := by
    intro s h
    simp only [_is_valid_pan_format, panGrammarChars, Bool.and_eq_true,
      decide_eq_true_eq] at h
    obtain ⟨⟨⟨hlen, h5⟩, hdig⟩, h9⟩ := h
    unfold _fix_pan_ocr_errors
    have hfix : fixPanChars s.data = s.data := by
      apply List.ext_getElem?
      intro i
      rw [fixPanChars_getElem? _ (by omega) i]
      rw [pyUpper, List.getElem?_map]
      cases hc : s.data[i]? with
      | none => rfl
      | some c =>
        have hi : i < 10 := by
          have := (List.getElem?_eq_some.mp hc).1
          omega
        show some (fixPanSpecChar i (pyUpperCh c)) = some c
        congr 1
        rcases Nat.lt_or_ge i 5 with h04 | hge
        · have hcu : isAsciiUpper c = true := by
            have hmem : c ∈ s.data.take 5 := by
              apply List.getElem?_mem (n := i)
              rw [List.getElem?_take, if_pos h04]
              exact hc
            exact List.all_eq_true.mp h5 c hmem
          rw [pyUpperCh_of_upper hcu]
          unfold fixPanSpecChar
          rw [if_neg (by omega), if_pos (by omega)]
          unfold letterFixChar
          rw [isDigitCh_false_of_upper hcu]
          simp
        · rcases Nat.lt_or_ge i 9 with h58 | h9i
          · have hcd : isDigitCh c = true := by
              have hmem : c ∈ (s.data.drop 5).take 4 := by
                apply List.getElem?_mem (n := i - 5)
                rw [List.getElem?_take, if_pos (by omega), List.getElem?_drop,
                  show 5 + (i - 5) = i by omega]
                exact hc
              exact List.all_eq_true.mp hdig c hmem
            rw [pyUpperCh_of_digit hcd]
            unfold fixPanSpecChar
            rw [if_pos (by omega)]
            unfold digitFixChar
            rw [alookup_digit_corrections_of_digit hcd]
            rfl
          · have hcu : isAsciiUpper c = true := by
              have hmem : c ∈ s.data.drop 9 := by
                apply List.getElem?_mem (n := i - 9)
                rw [List.getElem?_drop, show 9 + (i - 9) = i by omega]
                exact hc
              exact List.all_eq_true.mp h9 c hmem
            rw [pyUpperCh_of_upper hcu]
            unfold fixPanSpecChar
            rw [if_neg (by omega), if_pos (Or.inr (by omega))]
            unfold letterFixChar
            rw [isDigitCh_false_of_upper hcu]
            simp
    rw [hfix, asString_data]
  exact ⟨main, fun x h => main _ h⟩

/-- Witness for C5 at concrete inputs. -/
theorem fix_pan_id_on_valid_witness :
    _fix_pan_ocr_errors "ABCDE1234F" = "ABCDE1234F" ∧
    _fix_pan_ocr_errors (_fix_pan_ocr_errors "QWERT0I23X") =
      _fix_pan_ocr_errors "QWERT0I23X" :=
  ⟨fix_pan_id_on_valid.1 "ABCDE1234F" (by decide),
   fix_pan_id_on_valid.2 "QWERT0I23X" (by decide)⟩

/-! # C3: the date extractor checks ranges, not calendar validity -/

/-- C3 counterexample: the claim says `extract_dob "DOB: 31-02-2004"` is `None`;
the code accepts it, because only the ranges day 1-31 and month 1-12 are
checked, never whether the day exists in that month. -/
theorem extract_dob_feb31_not_none : extract_dob "DOB: 31-02-2004" ≠ none := by decide

/-- C3 amended: `extract_dob "DOB: 27-10-2004"` is `"27/10/2004"`, and
`extract_dob "DOB: 31-02-2004"` is `"31/02/2004"`: day/month pairs are accepted
whenever day is in 1-31 and month in 1-12, with no calendar-validity check. -/
theorem extract_dob_range_check_only :
    extract_dob "DOB: 27-10-2004" = some "27/10/2004" ∧
    extract_dob "DOB: 31-02-2004" = some "31/02/2004" := by
  constructor <;> decide

/-! # C6: pronounceability thresholds -/

theorem pronounceGo_vowel4 {a b c d : Char} (rest : List Char) (vc cc : Nat)
    (ha : isVowelCh a = true) (hb : isVowelCh b = true) (hc : isVowelCh c = true)
    (hd : isVowelCh d = true) :
    pronounceGo (a :: b :: c :: d :: rest) vc cc = false := by
  simp only [pronounceGo, ha, hb, hc, hd, if_true]
  split_ifs <;> first | rfl | (exfalso; omega)

theorem isConsCh_parts {c : Char} (h : isConsCh c = true) :
    isVowelCh c = false ∧ c ≠ ' ' ∧ c ≠ '-' := by
  simp only [isConsCh, Bool.and_eq_true, Bool.not_eq_true', Bool.not_eq_true,
    decide_eq_false_iff_not] at h
  exact ⟨h.1.1, h.1.2, h.2⟩

theorem pronounceGo_cons_step {c : Char} (l : List Char) (vc cc : Nat)
    (h1 : isVowelCh c = false) (h2 : c ≠ ' ') (h3 : c ≠ '-') :
    pronounceGo (c :: l) vc cc =
      if cc + 1 > 4 then false else pronounceGo l 0 (cc + 1) := by
  simp only [pronounceGo, h1, Bool.false_eq_true, if_false]
  rw [if_neg (by tauto)]

theorem pronounceGo_cons5 {a b c d e : Char} (rest : List Char) (vc cc : Nat)
    (ha : isConsCh a = true) (hb : isConsCh b = true) (hc : isConsCh c = true)
    (hd : isConsCh d = true) (he : isConsCh e = true) :
    pronounceGo (a :: b :: c :: d :: e :: rest) vc cc = false := by
  obtain ⟨ha1, ha2, ha3⟩ := isConsCh_parts ha
  obtain ⟨hb1, hb2, hb3⟩ := isConsCh_parts hb
  obtain ⟨hc1, hc2, hc3⟩ := isConsCh_parts hc
  obtain ⟨hd1, hd2, hd3⟩ := isConsCh_parts hd
  obtain ⟨he1, he2, he3⟩ := isConsCh_parts he
  rw [pronounceGo_cons_step _ _ _ ha1 ha2 ha3]
  split_ifs with hx1
  · rfl
  rw [pronounceGo_cons_step _ _ _ hb1 hb2 hb3]
  split_ifs with hx2
  · rfl
  rw [pronounceGo_cons_step _ _ _ hc1 hc2 hc3]
  split_ifs with hx3
  · rfl
  rw [pronounceGo_cons_step _ _ _ hd1 hd2 hd3]
  split_ifs with hx4
  · rfl
  rw [pronounceGo_cons_step _ _ _ he1 he2 he3, if_pos (by omega)]

theorem pronounceGo_false_of_vowelRun {w : List Char}
    (h : hasRun isVowelCh 4 w = true) : ∀ vc cc, pronounceGo w vc cc = false := by
  induction w with
  | nil => simp [hasRun] at h
  | cons x cs ih =>
    intro vc cc
    simp only [hasRun, Bool.or_eq_true] at h
    rcases h with h | h
    · rw [Bool.and_eq_true] at h
      obtain ⟨hlen, hall⟩ := h
      rcases cs with _ | ⟨b, _ | ⟨c2, _ | ⟨d, rest⟩⟩⟩ <;>
        simp only [List.take, List.length, decide_eq_true_eq] at hlen <;>
        try omega
      simp only [List.take, List.all_cons, List.all_nil, Bool.and_eq_true,
        Bool.and_true] at hall
      exact pronounceGo_vowel4 rest vc cc hall.1 hall.2.1 hall.2.2.1 hall.2.2.2
    · simp only [pronounceGo]
      split_ifs <;> first | rfl | exact ih h _ _

theorem pronounceGo_false_of_consRun {w : List Char}
    (h : hasRun isConsCh 5 w = true) : ∀ vc cc, pronounceGo w vc cc = false := by
  induction w with
  | nil => simp [hasRun] at h
  | cons x cs ih =>
    intro vc cc
    simp only [hasRun, Bool.or_eq_true] at h
    rcases h with h | h
    · rw [Bool.and_eq_true] at h
      obtain ⟨hlen, hall⟩ := h
      rcases cs with _ | ⟨b, _ | ⟨c2, _ | ⟨d, _ | ⟨e, rest⟩⟩⟩⟩ <;>
        simp only [List.take, List.length, decide_eq_true_eq] at hlen <;>
        try omega
      simp only [List.take, List.all_cons, List.all_nil, Bool.and_eq_true,
        Bool.and_true] at hall
      exact pronounceGo_cons5 rest vc cc hall.1 hall.2.1 hall.2.2.1 hall.2.2.2.1
        hall.2.2.2.2
    · simp only [pronounceGo]
      split_ifs <;> first | rfl | exact ih h _ _

/-- C6 counterexample: the claim says a word with a run of exactly 4
consecutive consonants is rejected; `"ERNST MAIER"`, whose word `"ERNST"`
contains such a run, is accepted by `_is_valid_name`. -/
theorem name_cons_run4_accepted :
    hasRun isConsCh 4 "ERNST".data = true ∧
    "ERNST".data ∈ nameWords "ERNST MAIER".data ∧
    _is_valid_name "ERNST MAIER" = true := by decide

/-- C6 amended: `_is_valid_name` rejects any name one of whose words contains
4 or more consecutive vowels or 5 or more consecutive consonants; a run of
exactly 4 consonants is not by itself grounds for rejection. -/
theorem name_rejects_vowel4_cons5 :
    ∀ (text : String) (asw : Bool),
      ((nameWords text.data).any fun w =>
        hasRun isVowelCh 4 w || hasRun isConsCh 5 w) = true →
      _is_valid_name text asw = false := by
  intro text asw h
  obtain ⟨w, hw, hrun⟩ := List.any_eq_true.mp h
  have hrun' : hasRun isVowelCh 4 w = true ∨ hasRun isConsCh 5 w = true := by
    simpa using hrun
  have hp : pronounceGo w 0 0 = false := by
    rcases hrun' with h4 | h5
    · exact pronounceGo_false_of_vowelRun h4 0 0
    · exact pronounceGo_false_of_consRun h5 0 0
  simp only [nameWords] at hw
  unfold _is_valid_name validNameChars
  split_ifs <;> first
    | rfl
    | exact List.all_eq_false.mpr ⟨w, hw, by simp [hp]⟩

/-- Witness for C6 at a concrete input: `"BCDFG"` is a run of 5 consonants. -/
theorem name_rejects_vowel4_cons5_witness :
    (((nameWords "BCDFG KUMAR".data).any fun w =>
      hasRun isVowelCh 4 w || hasRun isConsCh 5 w) = true) ∧
    _is_valid_name "BCDFG KUMAR" false = false :=
  ⟨by decide, name_rejects_vowel4_cons5 "BCDFG KUMAR" false (by decide)⟩

/-! # C2: ensemble voting -/

theorem maxByFirst_mem {α β : Type} [LinearOrder β] (f : α → β) (l : List α) (a : α)
    (h : maxByFirst f l = some a) : a ∈ l := by
  have hfold : ∀ (xs : List α) (acc : α),
      xs.foldl (fun b y => if f b < f y then y else b) acc = acc ∨
      xs.foldl (fun b y => if f b < f y then y else b) acc ∈ xs := by
    intro xs
    induction xs with
    | nil => intro acc; exact Or.inl rfl
    | cons y ys ih =>
      intro acc
      simp only [List.foldl_cons]
      rcases ih (if f acc < f y then y else acc) with h2 | h2
      · rw [h2]
        split_ifs
        · exact Or.inr (List.mem_cons_self _ _)
        · exact Or.inl rfl
      · exact Or.inr (List.mem_cons_of_mem _ h2)
  cases l with
  | nil => simp [maxByFirst] at h
  | cons x xs =>
    simp only [maxByFirst, Option.some.injEq] at h
    rw [← h]
    rcases hfold xs x with h2 | h2
    · rw [h2]; exact List.mem_cons_self _ _
    · exact List.mem_cons_of_mem _ h2

theorem dedupKeys_eq_self_of_nodup {texts : List String} (h : texts.Nodup) :
    dedupKeys texts = texts := by
  have hfold : ∀ (l acc : List String), (acc ++ l).Nodup →
      l.foldl (fun acc t => if acc.contains t then acc else acc ++ [t]) acc = acc ++ l := by
    intro l
    induction l with
    | nil => intro acc _; simp
    | cons x xs ih =>
      intro acc hnd
      have hx : ¬acc.contains x = true := by
        intro hc
        have hxm : x ∈ acc := List.elem_iff.mp hc
        have hnd' : (acc ++ x :: xs).Nodup := hnd
        rw [List.nodup_append] at hnd'
        exact hnd'.2.2 hxm (List.mem_cons_self _ _)
      rw [List.foldl_cons, if_neg hx]
      have h2 := ih (acc ++ [x]) (by simpa using hnd)
      rw [h2]
      simp
  have h2 := hfold texts [] (by simpa using h)
  unfold dedupKeys
  rw [h2]
  rfl

/-- C2 counterexample: with attempts `[("A", 50), ("", 90)]` the retained
texts are all unique, but the confidence fallback maximizes over all attempts
including the empty-text one, so the result is `""`, not the text `"A"` of the
highest-confidence retained attempt. -/
theorem ensemble_vote_empty_can_win :
    ensemble_vote [("A", 50), ("", 90)] = "" ∧
    ¬ensemble_vote [("A", 50), ("", 90)] = "A" := by
  constructor <;> decide

/-- C2 amended: attempts with empty text are discarded before the majority
count, and if no attempt yields text the result is the empty string; but when
every retained attempt's text is unique, the result is the text of the first
highest-confidence attempt among all attempts, the empty-text ones included,
so the result can be the empty string even when some attempt yielded text. -/
theorem ensemble_vote_spec :
    (∀ results : List (String × Rat),
      retainedTexts results = [] → ensemble_vote results = "") ∧
    (∀ results : List (String × Rat),
      (retainedTexts results).Nodup → retainedTexts results ≠ [] →
      ensemble_vote results = maxConfText results) := by
  constructor
  · intro results h
    unfold ensemble_vote
    rw [h]
    rfl
  · intro results hnd hne
    unfold ensemble_vote
    rw [if_neg (by simpa using hne)]
    rw [dedupKeys_eq_self_of_nodup hnd]
    cases hm : maxByFirst (fun t => (retainedTexts results).count t)
        (retainedTexts results) with
    | none =>
      exfalso
      cases hl : retainedTexts results with
      | nil => exact hne hl
      | cons x xs => rw [hl] at hm; simp [maxByFirst] at hm
    | some mct =>
      have hmem : mct ∈ retainedTexts results := maxByFirst_mem _ _ _ hm
      show (if List.count mct (retainedTexts results) = 1 ∧
          (retainedTexts results).length = (retainedTexts results).length then
        maxConfText results else mct) = maxConfText results
      rw [if_pos ⟨List.count_eq_one_of_mem hnd hmem, rfl⟩]

/-- Witness for C2 at concrete inputs. -/
theorem ensemble_vote_spec_witness :
    ensemble_vote ([] : List (String × Rat)) = "" ∧
    ensemble_vote [("A", 50), ("B", 90)] = maxConfText [("A", 50), ("B", 90)] :=
  ⟨ensemble_vote_spec.1 [] (by decide), ensemble_vote_spec.2 [("A", 50), ("B", 90)]
    (by decide) (by decide)⟩

/-! # C4: undecodable image bytes -/

/-- C4 counterexample: on an environment whose image bytes do not decode,
`extract_pan_data` reports `success = True`, not `success = False` as the
claim states. -/
theorem extract_pan_data_decode_fail_not_failure :
    dictLookup (extract_pan_data ⟨false, [], [], some "X"⟩ false) "success" =
      some (PyVal.pyBool true) ∧
    ¬dictLookup (extract_pan_data ⟨false, [], [], some "X"⟩ false) "success" =
      some (PyVal.pyBool false) := by
  constructor <;> decide

/-- C4 amended: when the input image bytes cannot be decoded, every OCR layer
swallows the failure, so `extract_pan_data` returns `success = True` with all
extracted fields `None` and an empty `raw_text`; a decode error is not fatal
for the call. -/
theorem extract_pan_data_decode_fail (env : OCREnv) (ue : Bool)
    (h : env.decodeOk = false) :
    extract_pan_data env ue =
      [("pan_number", PyVal.pyNone), ("name", PyVal.pyNone),
       ("father_name", PyVal.pyNone), ("dob", PyVal.pyNone),
       ("pan_photo_base64", PyVal.pyNone), ("raw_text", PyVal.pyStr ""),
       ("success", PyVal.pyBool true)] := by
  have ht : extract_text_with_tesseract env ue = "" := by
    cases ue <;> simp [extract_text_with_tesseract, ensemble_tesseract_bytes, h]
  have hb : extract_pan_data env ue =
      [("pan_number", pyOpt (extract_pan_number (extract_text_with_tesseract env ue))),
       ("name", pyOpt (extract_name (extract_text_with_tesseract env ue))),
       ("father_name", pyOpt (extract_father_name (extract_text_with_tesseract env ue))),
       ("dob", pyOpt (extract_dob (extract_text_with_tesseract env ue))),
       ("pan_photo_base64", pyOpt (extract_photo_from_pan env)),
       ("raw_text", .pyStr (extract_text_with_tesseract env ue)),
       ("success", .pyBool true)] := rfl
  rw [hb, ht]
  have hphoto : extract_photo_from_pan env = none := by
    simp [extract_photo_from_pan, h]
  rw [hphoto]
  have h1 : extract_pan_number "" = none := by decide
  have h2 : extract_name "" = none := by decide
  have h3 : extract_father_name "" = none := by decide
  have h4 : extract_dob "" = none := by decide
  rw [h1, h2, h3, h4]
  rfl

/-- Witness for C4's amended theorem at a concrete environment. -/
theorem extract_pan_data_decode_fail_witness :
    extract_pan_data ⟨false, [("A", 50)], [some "T"], some "X"⟩ true =
      [("pan_number", PyVal.pyNone), ("name", PyVal.pyNone),
       ("father_name", PyVal.pyNone), ("dob", PyVal.pyNone),
       ("pan_photo_base64", PyVal.pyNone), ("raw_text", PyVal.pyStr ""),
       ("success", PyVal.pyBool true)] :=
  extract_pan_data_decode_fail ⟨false, [("A", 50)], [some "T"], some "X"⟩ true rfl

/-! # C9: shape of the result dict -/

/-- C9: `extract_pan_data` is total (every exception of a sub-step is caught
inside that step, and the final catch-all maps any escaping error to the error
dict); the result always holds a Boolean `success` key, a `True` value comes
with exactly the seven documented keys, and a `False` value with only
`error` and `success`. -/
theorem extract_pan_data_dict_shape :
    ∀ (env : OCREnv) (ue : Bool),
      (∃ b, dictLookup (extract_pan_data env ue) "success" = some (.pyBool b)) ∧
      (dictLookup (extract_pan_data env ue) "success" = some (.pyBool true) →
        dictKeys (extract_pan_data env ue) =
          ["pan_number", "name", "father_name", "dob", "pan_photo_base64",
           "raw_text", "success"]) ∧
      (dictLookup (extract_pan_data env ue) "success" = some (.pyBool false) →
        dictKeys (extract_pan_data env ue) = ["error", "success"]) := by
  intro env ue
  have hs : dictLookup (extract_pan_data env ue) "success" =
      some (PyVal.pyBool true) := rfl
  refine ⟨⟨true, hs⟩, fun _ => rfl, fun hf => ?_⟩
  rw [hs] at hf
  simp at hf

/-- Witness for C9 at a concrete environment. -/
theorem extract_pan_data_dict_shape_witness :
    dictKeys (extract_pan_data ⟨true, [("T", 1)], [some "T"], none⟩ false) =
      ["pan_number", "name", "father_name", "dob", "pan_photo_base64",
       "raw_text", "success"] :=
  (extract_pan_data_dict_shape ⟨true, [("T", 1)], [some "T"], none⟩ false).2.1 rfl

/-! # C8: candidate order inside `extract_pan_number` -/

/-- C8 counterexample: in the text `"ABCDE 1234 F\nVWXYZ9876K"` the
whitespace-containing valid match `ABCDE1234F` occurs earlier in the text than
the contiguous valid match `VWXYZ9876K`, yet the extractor returns
`VWXYZ9876K`: strategy 2 exhausts the contiguous pattern before the
whitespace-tolerant one, so candidates are not ordered by text position. -/
theorem extract_pan_number_pattern_order_counterexample :
    pan_strategy2 (pyUpper "ABCDE 1234 F\nVWXYZ9876K".data) =
      ["VWXYZ9876K".data, "ABCDE1234F".data] ∧
    extract_pan_number "ABCDE 1234 F\nVWXYZ9876K" = some "VWXYZ9876K" ∧
    ¬extract_pan_number "ABCDE 1234 F\nVWXYZ9876K" = some "ABCDE1234F" := by
  refine ⟨by decide, by decide, by decide⟩

/-- C8 amended: `extract_pan_number` returns the first valid candidate of the
concatenated per-strategy candidate lists, strategies in order; within
strategy 1 and within each single regex of strategy 2 candidates appear in
text order, but strategy 2 lists all contiguous-pattern matches before all
whitespace-pattern matches, so a valid contiguous match later in the text wins
over a valid whitespace-containing match earlier in the text (witnessed by the
second conjunct). -/
theorem extract_pan_number_strategy_order :
    (∀ text : String,
      extract_pan_number text =
        ((pan_strategy1 (splitNl (pyUpper text.data)) ++
          pan_strategy2 (pyUpper text.data) ++
          pan_strategy3 (pyUpper text.data)).head?).map List.asString) ∧
    extract_pan_number "ABCDE 1234 F\nVWXYZ9876K" = some "VWXYZ9876K" := by
  constructor
  · intro text
    unfold extract_pan_number
    cases h1 : pan_strategy1 (splitNl (pyUpper text.data)) with
    | cons x xs => simp
    | nil =>
      cases h2 : pan_strategy2 (pyUpper text.data) with
      | cons y ys => simp
      | nil => simp
  · decide

/-! # C1: extractors only return validated values -/

theorem mem_ite_nil_right {α : Type} {x : α} {c : Prop} [Decidable c] {A : List α}
    (h : x ∈ (if c then A else [])) : x ∈ A := by
  split at h
  · exact h
  · simp at h

theorem mem_ite_singleton {α : Type} {x y : α} {c : Prop} [Decidable c]
    (h : x ∈ (if c then [y] else [])) : c ∧ x = y := by
  split at h
  · next hc => simp only [List.mem_singleton] at h; exact ⟨hc, h⟩
  · simp at h

theorem foldl_guard_preserve {α β : Type} (P : α → Prop) (step : List α → β → List α)
    (hstep : ∀ acc b x, (∀ y ∈ acc, P y) → x ∈ step acc b → P x) :
    ∀ (l : List β) (acc : List α), (∀ y ∈ acc, P y) → ∀ x ∈ l.foldl step acc, P x := by
  intro l
  induction l with
  | nil => intro acc hacc x hx; exact hacc x hx
  | cons b bs ih =>
    intro acc hacc x hx
    exact ih (step acc b) (fun y hy => hstep acc b y hacc hy) x hx

theorem foldl_choice_mem {α : Type} (choose : α → α → Bool) (xs : List α) (acc : α) :
    xs.foldl (fun b x => if choose b x then x else b) acc = acc ∨
    xs.foldl (fun b x => if choose b x then x else b) acc ∈ xs := by
  induction xs generalizing acc with
  | nil => exact Or.inl rfl
  | cons y ys ih =>
    simp only [List.foldl_cons]
    rcases ih (if choose acc y then y else acc) with h | h
    · rw [h]
      split_ifs
      · exact Or.inr (List.mem_cons_self _ _)
      · exact Or.inl rfl
    · exact Or.inr (List.mem_cons_of_mem _ h)

theorem pickBest_mem {l : List Cand} {c : Cand} (h : pickBest l = some c) : c ∈ l := by
  cases l with
  | nil => simp [pickBest] at h
  | cons x xs =>
    simp only [pickBest, Option.some.injEq] at h
    rw [← h]
    rcases foldl_choice_mem (fun b y => keyLt (y.rank, y.dist) (b.rank, b.dist)) xs x with
      h2 | h2
    · rw [h2]; exact List.mem_cons_self _ _
    · exact List.mem_cons_of_mem _ h2

theorem pan_strategy1_valid {lines : List (List Char)} {x : List Char}
    (hx : x ∈ pan_strategy1 lines) : panGrammarChars x = true := by
  unfold pan_strategy1 at hx
  obtain ⟨i, _, hx⟩ := List.mem_flatMap.mp hx
  replace hx := mem_ite_nil_right hx
  obtain ⟨j, _, hx⟩ := List.mem_flatMap.mp hx
  replace hx := mem_ite_nil_right hx
  obtain ⟨k, _, hx⟩ := List.mem_flatMap.mp hx
  replace hx := mem_ite_nil_right hx
  obtain ⟨hcond, rfl⟩ := mem_ite_singleton hx
  exact hcond

theorem pan_strategy2_valid {t x} (hx : x ∈ pan_strategy2 t) :
    panGrammarChars x = true := by
  unfold pan_strategy2 at hx
  refine foldl_guard_preserve (fun y => panGrammarChars y = true) _ ?_ _ [] (by simp) x hx
  intro acc b y hacc hy
  split at hy
  · next hcond =>
    rcases List.mem_append.mp hy with h | h
    · exact hacc _ h
    · rw [List.mem_singleton] at h
      subst h
      exact hcond.1
  · exact hacc _ hy

theorem pan_strategy3_valid {t x} (hx : x ∈ pan_strategy3 t) :
    panGrammarChars x = true := by
  unfold pan_strategy3 at hx
  refine foldl_guard_preserve (fun y => panGrammarChars y = true) _ ?_ _ [] (by simp) x hx
  intro acc b y hacc hy
  unfold pan3_step at hy
  split at hy
  · exact hacc _ hy
  · split at hy
    · split at hy
      · next hcond =>
        rcases List.mem_append.mp hy with h | h
        · exact hacc _ h
        · rw [List.mem_singleton] at h
          subst h
          exact hcond.1
      · exact hacc _ hy
    · exact hacc _ hy

theorem extract_pan_number_valid {t : String} {v : String}
    (h : extract_pan_number t = some v) : _is_valid_pan_format v = true := by
  unfold extract_pan_number at h
  cases h1 : (pan_strategy1 (splitNl (pyUpper t.data))).head? with
  | some x =>
    rw [h1] at h
    simp only [Option.some.injEq] at h
    subst h
    exact pan_strategy1_valid (List.mem_of_mem_head? h1)
  | none =>
    rw [h1] at h
    cases h2 : (pan_strategy2 (pyUpper t.data)).head? with
    | some x =>
      rw [h2] at h
      simp only [Option.some.injEq] at h
      subst h
      exact pan_strategy2_valid (List.mem_of_mem_head? h2)
    | none =>
      rw [h2] at h
      cases h3 : (pan_strategy3 (pyUpper t.data)).head? with
      | some x =>
        rw [h3] at h
        simp only [Option.map_some', Option.some.injEq] at h
        subst h
        exact pan_strategy3_valid (List.mem_of_mem_head? h3)
      | none => rw [h3] at h; simp at h

theorem nameStrategy1_valid {cleaned : List (List Char)} {c : Cand}
    (hc : c ∈ nameStrategy1 cleaned) : validNameChars c.val false = true := by
  unfold nameStrategy1 at hc
  split at hc
  · rename_i x fi heq
    by_cases h1 : 0 < fi
    · rw [if_pos h1] at hc
      by_cases h2 : 2 ≤ (splitWs (keepUpperWs (cleaned.getD (fi - 1) []))).length
      · rw [if_pos h2] at hc
        by_cases h3 : 2 ≤ (takeNameWords
            ((splitWs (keepUpperWs (cleaned.getD (fi - 1) []))).take 4) []).length
        · rw [if_pos h3] at hc
          obtain ⟨hv, rfl⟩ := mem_ite_singleton hc
          simpa using hv
        · rw [if_neg h3] at hc
          simp at hc
      · rw [if_neg h2] at hc
        simp at hc
    · rw [if_neg h1] at hc
      simp at hc
  · simp at hc

theorem nameScanGo_valid {cleaned : List (List Char)} {i : Nat} :
    ∀ js (c : Cand), c ∈ nameScanGo cleaned i js → validNameChars c.val false = true := by
  intro js
  induction js with
  | nil => intro c hc; simp [nameScanGo] at hc
  | cons j js ih =>
    intro c hc
    unfold nameScanGo at hc
    split at hc
    · simp at hc
    · rcases List.mem_append.mp hc with h | h
      · replace h := mem_ite_nil_right h
        obtain ⟨hv, rfl⟩ := mem_ite_singleton h
        simpa using hv
      · exact ih c h

theorem nameStrategy2_valid {cleaned : List (List Char)} {c : Cand}
    (hc : c ∈ nameStrategy2 cleaned) : validNameChars c.val false = true := by
  unfold nameStrategy2 at hc
  obtain ⟨i, _, hc⟩ := List.mem_flatMap.mp hc
  replace hc := mem_ite_nil_right hc
  exact nameScanGo_valid _ c hc

theorem nameStrategy3_valid {cleaned : List (List Char)} {c : Cand}
    (hc : c ∈ nameStrategy3 cleaned) : validNameChars c.val false = true := by
  unfold nameStrategy3 at hc
  split at hc
  · next cn heq =>
    obtain ⟨m, _, hm⟩ := List.exists_of_findSome?_eq_some heq
    split at hm
    · next hv =>
      simp only [Option.some.injEq] at hm
      simp only [List.mem_singleton] at hc
      subst hc
      rw [← hm]
      simpa using hv
    · simp at hm
  · simp at hc

theorem nameCandidates_valid {t : List Char} {c : Cand}
    (hc : c ∈ nameCandidates t) : validNameChars c.val false = true := by
  unfold nameCandidates at hc
  split at hc
  · exact nameStrategy1_valid hc
  · split at hc
    · exact nameStrategy2_valid hc
    · exact nameStrategy3_valid hc

theorem fatherLineCand_valid {person : Option (List Char)} {nlc : List Char} {j : Nat}
    {c : Cand} (hc : c ∈ fatherLineCand person nlc j) : validNameChars c.val true = true := by
  unfold fatherLineCand at hc
  generalize hg : cleanName nlc = CN at hc
  split at hc
  · split at hc
    · next hv =>
      split at hc
      · split at hc
        · split at hc
          · obtain rfl := List.mem_singleton.mp hc
            simpa [← hg] using hv.1
          · simp at hc
        · obtain rfl := List.mem_singleton.mp hc
          simpa [← hg] using hv.1
      · obtain rfl := List.mem_singleton.mp hc
        simpa [← hg] using hv.1
    · simp at hc
  · simp at hc

theorem fatherScanGo_valid {cleaned : List (List Char)} {person : Option (List Char)}
    {i : Nat} :
    ∀ js (c : Cand), c ∈ fatherScanGo cleaned person i js →
      validNameChars c.val true = true := by
  intro js
  induction js with
  | nil => intro c hc; simp [fatherScanGo] at hc
  | cons j js ih =>
    intro c hc
    unfold fatherScanGo at hc
    split at hc
    · simp at hc
    · rcases List.mem_append.mp hc with h | h
      · exact fatherLineCand_valid h
      · exact ih c h

theorem fatherStrategy1Line_valid {cleaned : List (List Char)}
    {person : Option (List Char)} {i : Nat} {c : Cand}
    (hc : c ∈ fatherStrategy1Line cleaned person i) : validNameChars c.val true = true := by
  unfold fatherStrategy1Line at hc
  replace hc := mem_ite_nil_right hc
  rcases List.mem_append.mp hc with h | h
  · split at h
    · replace h := mem_ite_nil_right h
      obtain ⟨hv, rfl⟩ := mem_ite_singleton h
      simpa using hv.1
    · simp at h
  · exact fatherScanGo_valid _ c h

theorem fatherStrategy2_valid {person : Option (List Char)} {c : Cand}
    (hc : c ∈ fatherStrategy2 person) : validNameChars c.val true = true := by
  unfold fatherStrategy2 at hc
  split at hc
  · replace hc := mem_ite_nil_right hc
    obtain ⟨hv, rfl⟩ := mem_ite_singleton hc
    simpa using hv.2
  · simp at hc

theorem fatherStrategy3_valid {cleaned : List (List Char)}
    {person : Option (List Char)} {c : Cand}
    (hc : c ∈ fatherStrategy3 cleaned person) : validNameChars c.val true = true := by
  unfold fatherStrategy3 at hc
  refine foldl_guard_preserve (fun y => validNameChars y.val true = true) _ ?_ _ []
    (by simp) c hc
  intro acc b y hacc hy
  split at hy
  · next hcond =>
    split at hy
    · rcases List.mem_append.mp hy with h | h
      · exact hacc _ h
      · rw [List.mem_singleton] at h
        subst h
        simpa using hcond.1
    · exact hacc _ hy
  · exact hacc _ hy

theorem fatherCandidates_valid {t : List Char} {c : Cand}
    (hc : c ∈ fatherCandidates t) : validNameChars c.val true = true := by
  unfold fatherCandidates at hc
  split at hc
  · unfold fatherS1 at hc
    obtain ⟨i, _, hc⟩ := List.mem_flatMap.mp hc
    exact fatherStrategy1Line_valid hc
  · split at hc
    · exact fatherStrategy2_valid hc
    · exact fatherStrategy3_valid hc

theorem dobCandidates_shape {t : List Char} {x : List Char}
    (hx : x ∈ dobCandidates t) :
    ∃ d m y, 1 ≤ d ∧ d ≤ 31 ∧ 1 ≤ m ∧ m ≤ 12 ∧ 1920 ≤ y ∧ y ≤ 2010 ∧
      x = formatDate d m y := by
  unfold dobCandidates at hx
  obtain ⟨g, _, hx⟩ := List.mem_flatMap.mp hx
  obtain ⟨hr, rfl⟩ := mem_ite_singleton hx
  simp only [dobRanges, Bool.and_eq_true, decide_eq_true_eq] at hr
  exact ⟨(dobTriple g).1, (dobTriple g).2.1, (dobTriple g).2.2,
    hr.1.1.1.1.1, hr.1.1.1.1.2, hr.1.1.1.2, hr.1.1.2, hr.1.2, hr.2, rfl⟩

/-- C1: each field extractor only returns values passing its validator:
a non-`None` document number matches the grammar, a non-`None` primary name
passes `_is_valid_name`, a non-`None` secondary name passes `_is_valid_name`
with single words allowed, and a non-`None` date of birth is `DD/MM/YYYY` with
day 1-31, month 1-12, year 1920-2010. -/
theorem extractors_return_validated :
    ∀ (t v : String),
      (extract_pan_number t = some v → _is_valid_pan_format v = true) ∧
      (extract_name t = some v → _is_valid_name v = true) ∧
      (extract_father_name t = some v → _is_valid_name v true = true) ∧
      (extract_dob t = some v →
        ∃ d m y, 1 ≤ d ∧ d ≤ 31 ∧ 1 ≤ m ∧ m ≤ 12 ∧ 1920 ≤ y ∧ y ≤ 2010 ∧
          v = (formatDate d m y).asString) := by
  intro t v
  refine ⟨extract_pan_number_valid, ?_, ?_, ?_⟩
  · intro h
    unfold extract_name at h
    cases hp : pickBest (nameCandidates t.data) with
    | none => rw [hp] at h; simp at h
    | some c =>
      rw [hp] at h
      simp only [Option.map_some', Option.some.injEq] at h
      subst h
      exact nameCandidates_valid (pickBest_mem hp)
  · intro h
    unfold extract_father_name at h
    cases hp : pickBest (fatherCandidates t.data) with
    | none => rw [hp] at h; simp at h
    | some c =>
      rw [hp] at h
      simp only [Option.map_some', Option.some.injEq] at h
      subst h
      exact fatherCandidates_valid (pickBest_mem hp)
  · intro h
    unfold extract_dob at h
    cases hd : (dobCandidates t.data).head? with
    | none => rw [hd] at h; simp at h
    | some x =>
      rw [hd] at h
      simp only [Option.map_some', Option.some.injEq] at h
      subst h
      obtain ⟨d, m, y, h1, h2, h3, h4, h5, h6, rfl⟩ :=
        dobCandidates_shape (List.mem_of_mem_head? hd)
      exact ⟨d, m, y, h1, h2, h3, h4, h5, h6, rfl⟩

/-- Witness for C1: concrete inputs on which each extractor returns a value. -/
theorem extractors_return_validated_witness :
    _is_valid_pan_format "ABCDE1234F" = true ∧
    _is_valid_name "RAHUL KUMAR" = true ∧
    _is_valid_name "SURESH" true = true ∧
    (∃ d m y, 1 ≤ d ∧ d ≤ 31 ∧ 1 ≤ m ∧ m ≤ 12 ∧ 1920 ≤ y ∧ y ≤ 2010 ∧
      "27/10/2004" = (formatDate d m y).asString) :=
  ⟨(extractors_return_validated "ABCDE1234F" "ABCDE1234F").1 (by decide),
   (extractors_return_validated "RAHUL KUMAR\nFather\x27s Name: SURESH"
     "RAHUL KUMAR").2.1 (by decide),
   (extractors_return_validated "RAHUL KUMAR\nFather\x27s Name: SURESH"
     "SURESH").2.2.1 (by decide),
   (extractors_return_validated "DOB: 27-10-2004" "27/10/2004").2.2.2 (by decide)⟩

/-! # C7: priority of the same-line strategy in `extract_father_name` -/

theorem fatherLineCand_rank {person : Option (List Char)} {nlc : List Char} {j : Nat}
    {c : Cand} (hc : c ∈ fatherLineCand person nlc j) :
    c.rank = rankSWM ∨ c.rank = rankLabel := by
  unfold fatherLineCand at hc
  generalize cleanName nlc = CN at hc
  split at hc
  · split at hc
    · split at hc
      · split at hc
        · split at hc
          · obtain rfl := List.mem_singleton.mp hc
            exact Or.inl rfl
          · simp at hc
        · obtain rfl := List.mem_singleton.mp hc
          exact Or.inr rfl
      · obtain rfl := List.mem_singleton.mp hc
        exact Or.inr rfl
    · simp at hc
  · simp at hc

theorem fatherScanGo_rank {cleaned : List (List Char)} {person : Option (List Char)}
    {i : Nat} :
    ∀ js (c : Cand), c ∈ fatherScanGo cleaned person i js →
      c.rank = rankSWM ∨ c.rank = rankLabel := by
  intro js
  induction js with
  | nil => intro c hc; simp [fatherScanGo] at hc
  | cons j js ih =>
    intro c hc
    unfold fatherScanGo at hc
    split at hc
    · simp at hc
    · rcases List.mem_append.mp hc with h | h
      · exact fatherLineCand_rank h
      · exact ih c h

theorem fatherStrategy1Line_rank {cleaned : List (List Char)}
    {person : Option (List Char)} {i : Nat} {c : Cand}
    (hc : c ∈ fatherStrategy1Line cleaned person i) :
    (c.rank = rankSameLine ∧ c.dist = 0) ∨ c.rank = rankSWM ∨ c.rank = rankLabel := by
  unfold fatherStrategy1Line at hc
  replace hc := mem_ite_nil_right hc
  rcases List.mem_append.mp hc with h | h
  · split at h
    · replace h := mem_ite_nil_right h
      obtain ⟨_, rfl⟩ := mem_ite_singleton h
      exact Or.inl ⟨rfl, rfl⟩
    · simp at h
  · exact Or.inr (fatherScanGo_rank _ c h)

theorem fatherStrategy2_rank {person : Option (List Char)} {c : Cand}
    (hc : c ∈ fatherStrategy2 person) : c.rank = rankLastWord := by
  unfold fatherStrategy2 at hc
  split at hc
  · replace hc := mem_ite_nil_right hc
    obtain ⟨_, rfl⟩ := mem_ite_singleton hc
    rfl
  · simp at hc

theorem fatherStrategy3_rank {cleaned : List (List Char)}
    {person : Option (List Char)} {c : Cand}
    (hc : c ∈ fatherStrategy3 cleaned person) : c.rank = rankSWP := by
  unfold fatherStrategy3 at hc
  refine foldl_guard_preserve (fun y => y.rank = rankSWP) _ ?_ _ [] (by simp) c hc
  intro acc b y hacc hy
  split at hy
  · split at hy
    · rcases List.mem_append.mp hy with h | h
      · exact hacc _ h
      · rw [List.mem_singleton] at h
        subst h
        rfl
    · exact hacc _ hy
  · exact hacc _ hy

/-- Every candidate of `extract_father_name` whose strategy is `same_line` has
distance 0 in its sort key. -/
theorem fatherCandidates_sameline_dist0 {t : List Char} {c : Cand}
    (hc : c ∈ fatherCandidates t) : c.rank = rankSameLine → c.dist = 0 := by
  unfold fatherCandidates at hc
  split at hc
  · unfold fatherS1 at hc
    obtain ⟨i, _, hc⟩ := List.mem_flatMap.mp hc
    rcases fatherStrategy1Line_rank hc with ⟨_, hd⟩ | hr | hr
    · intro _; exact hd
    · intro h1; rw [hr] at h1; simp [rankSWM, rankSameLine] at h1
    · intro h1; rw [hr] at h1; simp [rankLabel, rankSameLine] at h1
  · split at hc
    · intro h1
      rw [fatherStrategy2_rank hc] at h1
      simp [rankLastWord, rankSameLine] at h1
    · intro h1
      rw [fatherStrategy3_rank hc] at h1
      simp [rankSWP, rankSameLine] at h1

theorem pickBest_eq_fold (c : Cand) (cs : List Cand) :
    pickBest (c :: cs) = some (cs.foldl pickStep c) := rfl

theorem fold_keeps_sameline (l : List Cand) (acc : Cand)
    (hacc : acc.rank = rankSameLine) (hd : acc.dist = 0)
    (hl : ∀ y ∈ l, y.rank ≠ rankSWM) :
    l.foldl pickStep acc = acc := by
  induction l with
  | nil => rfl
  | cons y ys ih =>
    have hy := hl y (List.mem_cons_self _ _)
    have hk : keyLt (y.rank, y.dist) (acc.rank, acc.dist) = false := by
      simp only [keyLt, hacc, hd, rankSameLine, Bool.or_eq_false_iff,
        decide_eq_false_iff_not, Bool.and_eq_false_iff]
      constructor
      · simp only [rankSWM] at hy
        omega
      · right
        simp
    simp only [List.foldl_cons, pickStep, hk, Bool.false_eq_true, if_false]
    exact ih fun z hz => hl z (List.mem_cons_of_mem _ hz)

theorem fold_reaches_first_sameline (l : List Cand) (acc c₀ : Cand)
    (hacc0 : acc.rank ≠ rankSWM) (hacc1 : acc.rank ≠ rankSameLine)
    (hl : ∀ y ∈ l, y.rank ≠ rankSWM) (hl1 : ∀ y ∈ l, y.rank = rankSameLine → y.dist = 0)
    (hfind : l.find? (fun y => y.rank == rankSameLine) = some c₀) :
    l.foldl pickStep acc = c₀ := by
  induction l generalizing acc with
  | nil => simp at hfind
  | cons y ys ih =>
    by_cases hy : y.rank = rankSameLine
    · rw [List.find?_cons_of_pos _ (by simp [hy])] at hfind
      obtain rfl := Option.some.inj hfind
      have hk : keyLt (y.rank, y.dist) (acc.rank, acc.dist) = true := by
        simp only [keyLt, hy, rankSameLine, Bool.or_eq_true, decide_eq_true_eq]
        left
        have h0 := hacc0
        have h1 := hacc1
        simp only [rankSWM, rankSameLine] at h0 h1
        omega
      simp only [List.foldl_cons, pickStep, hk, if_true]
      exact fold_keeps_sameline ys y hy
        (hl1 y (List.mem_cons_self _ _) hy)
        (fun z hz => hl z (List.mem_cons_of_mem _ hz))
    · rw [List.find?_cons_of_neg _ (by simp [hy])] at hfind
      simp only [List.foldl_cons]
      have hy0 := hl y (List.mem_cons_self _ _)
      unfold pickStep
      split
      · exact ih y hy0 hy (fun z hz => hl z (List.mem_cons_of_mem _ hz))
          (fun z hz => hl1 z (List.mem_cons_of_mem _ hz)) hfind
      · exact ih acc hacc0 hacc1 (fun z hz => hl z (List.mem_cons_of_mem _ hz))
          (fun z hz => hl1 z (List.mem_cons_of_mem _ hz)) hfind

/-- C7 counterexample: on the text below, a valid same-line candidate
(`RAMESH KUMAR`) and a valid follow-up-line candidate (`BALAGURU`, a single
word of the primary name, strategy `single_word_match`) both exist, and the
follow-up-line candidate is returned, so the same-line strategy does not have
the highest priority. -/
theorem father_same_line_not_highest :
    (fatherCandidates "ASHWIN BALAGURU\nFather\x27s Name: RAMESH KUMAR\nBALAGURU".data).map
        (fun c => (c.val.asString, c.rank, c.dist)) =
      [("RAMESH KUMAR", rankSameLine, 0), ("BALAGURU", rankSWM, 1)] ∧
    extract_father_name "ASHWIN BALAGURU\nFather\x27s Name: RAMESH KUMAR\nBALAGURU" =
      some "BALAGURU" ∧
    ¬extract_father_name "ASHWIN BALAGURU\nFather\x27s Name: RAMESH KUMAR\nBALAGURU" =
      some "RAMESH KUMAR" := by
  refine ⟨by decide, by decide, by decide⟩

/-- C7 amended: the `single_word_match` follow-up-line strategy outranks the
same-line strategy; in the absence of any `single_word_match` candidate, the
same-line strategy has the highest priority: whenever a valid same-line
candidate exists, the first same-line candidate is returned. -/
theorem father_same_line_wins_without_swm :
    ∀ (t : String) (c₀ : Cand),
      (∀ c ∈ fatherCandidates t.data, c.rank ≠ rankSWM) →
      (fatherCandidates t.data).find? (fun c => c.rank == rankSameLine) = some c₀ →
      extract_father_name t = some c₀.val.asString := by
  intro t c₀ hnoswm hfind
  have hdist : ∀ y ∈ fatherCandidates t.data, y.rank = rankSameLine → y.dist = 0 :=
    fun y hy => fatherCandidates_sameline_dist0 hy
  unfold extract_father_name
  cases hl : fatherCandidates t.data with
  | nil => rw [hl] at hfind; simp at hfind
  | cons c cs =>
    rw [hl] at hfind hdist hnoswm
    rw [pickBest_eq_fold]
    by_cases hc1 : c.rank = rankSameLine
    · rw [List.find?_cons_of_pos _ (by simp [hc1])] at hfind
      obtain rfl := Option.some.inj hfind
      rw [fold_keeps_sameline cs c hc1 (hdist c (List.mem_cons_self _ _) hc1)
        (fun z hz => hnoswm z (List.mem_cons_of_mem _ hz))]
      rfl
    · rw [List.find?_cons_of_neg _ (by simp [hc1])] at hfind
      rw [fold_reaches_first_sameline cs c c₀ (hnoswm c (List.mem_cons_self _ _)) hc1
        (fun z hz => hnoswm z (List.mem_cons_of_mem _ hz))
        (fun z hz => hdist z (List.mem_cons_of_mem _ hz)) hfind]
      rfl

/-- Witness for C7's amended theorem at a concrete input. -/
theorem father_same_line_wins_without_swm_witness :
    extract_father_name "RAHUL KUMAR\nFather\x27s Name: SURESH" =
      some (("SURESH".data).asString) :=
  father_same_line_wins_without_swm "RAHUL KUMAR\nFather\x27s Name: SURESH"
    ⟨"SURESH".data, rankSameLine, 0⟩ (by decide) (by decide)

end PanOCR
